import Mathlib

/-!
# Verification of the ultrarag workflow-orchestration core

A shallow embedding of the orchestration runtime found in
`src/ultrarag/core/` (the `SimpleMustache` template engine, the
`ServerManager` instance manager and the `WorkflowExecutor` step
interpreter), together with theorems settling the specification claims
about it.

Conventions used throughout the embedding:

* Python strings are modelled as `Str := List Char`; `str!` converts a
  Lean string literal to this representation.
* Python objects flowing through the executor are modelled by the
  inductive type `Value`; the constructor `Value.null` plays the role of
  Python's `None`, which the source uses both as a stored value and as
  the "absent" marker returned by `SimpleMustache._get_value`.
* Python dicts are modelled as association lists (`List (Str × α)`)
  with first-match lookup (`dget`), in-place-or-append update (`dset`)
  and first-occurrence removal (`dremove`), matching the insertion-order
  semantics of `dict.__getitem__` / `__setitem__` / `pop`.
* Raised exceptions are modelled with `Except Str`, carrying the
  exception message.
* `print` calls, the placeholder server threads and `time.sleep` have no
  observable effect on the state the claims are about and are not
  modelled.
-/

set_option maxRecDepth 4096

namespace UltraRag

/-- Python strings, modelled as lists of characters. -/
abbrev Str : Type := List Char

/-- Converts a Lean string literal into the model's string type. -/
def str! (s : String) : Str := s.data

/-- Python values flowing through the workflow executor: `None`, booleans,
integers, strings, lists and dicts (insertion-ordered association lists).
The source's float values are not exercised by any claim and are omitted. -/
inductive Value where
  | null : Value
  | bool (b : Bool) : Value
  | int (n : Int) : Value
  | str (s : Str) : Value
  | list (xs : List Value) : Value
  | dict (kvs : List (Str × Value)) : Value

/-- Python `value is not None`, the check the template engine applies to a
resolved value. -/
def notNull : Value → Bool
  | .null => false
  | _ => true

/-- A Python dict with `Value` entries. -/
abbrev Dict : Type := List (Str × Value)

/-- Python `d[k]` / `k in d`: first-match lookup in an association list. -/
def dget {α : Type} : List (Str × α) → Str → Option α
  | [], _ => none
  | (k, v) :: rest, key => if k = key then some v else dget rest key

/-- Python `d[k] = v`: replace the first binding of `k` in place, else append. -/
def dset {α : Type} : List (Str × α) → Str → α → List (Str × α)
  | [], key, v => [(key, v)]
  | (k, w) :: rest, key, v =>
      if k = key then (k, v) :: rest else (k, w) :: dset rest key v

/-- Python `d.pop(k)` (ignoring the returned value): removes the first
binding of `k`, if any. -/
def dremove {α : Type} : List (Str × α) → Str → List (Str × α)
  | [], _ => []
  | (k, v) :: rest, key => if k = key then rest else (k, v) :: dremove rest key

/-- The characters stripped by Python's `str.strip()` (ASCII whitespace). -/
def isPySpace (c : Char) : Bool :=
  c = ' ' ∨ c = '\t' ∨ c = '\n' ∨ c = '\r' ∨ c = '\x0b' ∨ c = '\x0c'

/-- Python `str.strip()`. -/
def pyTrim (s : Str) : Str :=
  ((s.dropWhile isPySpace).reverse.dropWhile isPySpace).reverse

/-- Python `str.lower()` (ASCII case folding suffices for the source's
truthiness check). -/
def pyLower (s : Str) : Str := s.map Char.toLower

mutual

/-- Python `repr` for the modelled values, as used by `str` on containers:
`repr(None) = "None"`, `repr(True) = "True"`, strings are single-quoted
(escaping inside string payloads is not modelled — no claim stringifies a
string containing a quote), lists are `[a, b]`, dicts are `\x7b'k': v\x7d`. -/
def pyRepr : Value → Str
  | .null => str! "None"
  | .bool true => str! "True"
  | .bool false => str! "False"
  | .int n => (toString n).data
  | .str s => '\'' :: (s ++ ['\''])
  | .list xs => '[' :: (pyReprList xs ++ [']'])
  | .dict kvs => '{' :: (pyReprDict kvs ++ ['}'])

/-- Comma-joined `repr`s of the elements of a list. -/
def pyReprList : List Value → Str
  | [] => []
  | [x] => pyRepr x
  | x :: xs => pyRepr x ++ (',' :: ' ' :: pyReprList xs)

/-- Comma-joined `'key': repr(value)` entries of a dict. -/
def pyReprDict : List (Str × Value) → Str
  | [] => []
  | [(k, v)] => '\'' :: (k ++ ('\'' :: ':' :: ' ' :: pyRepr v))
  | (k, v) :: rest =>
      ('\'' :: (k ++ ('\'' :: ':' :: ' ' :: pyRepr v))) ++ (',' :: ' ' :: pyReprDict rest)

end

/-- Python `str(value)`, as applied by `SimpleMustache._render_variables`
to a resolved value: strings pass through, everything else goes through
`repr`-style printing (which is what `str` does on `None`, booleans,
numbers, lists and dicts). -/
def pyStr : Value → Str
  | .str s => s
  | v => pyRepr v

/-- Python truthiness (`bool(value)`), used by the source at
`if result.get("success", False):`. -/
def pyTruthy : Value → Bool
  | .null => false
  | .bool b => b
  | .int n => if n = 0 then false else true
  | .str s => if s = [] then false else true
  | .list xs => !xs.isEmpty
  | .dict kvs => !kvs.isEmpty

/-- `key.split('.')` — Python's `str.split` on a single-character
separator; `"".split('.') = [""]`. -/
def splitDots : Str → List Str
  | [] => [[]]
  | c :: cs =>
      if c = '.' then [] :: splitDots cs
      else
        match splitDots cs with
        | p :: ps => (c :: p) :: ps
        | [] => [[c]]

/-! ## `SimpleMustache`: the template engine

`src/ultrarag/core/workflow_executor.py`, lines 6–119.  The regex-based
passes are embedded as character-level scanners with the same semantics
as the source's patterns (leftmost match, non-greedy closing `\x7d\x7d`,
`.` not matching a newline unless `DOTALL` is set, `re.sub` resuming
after the replaced region without re-scanning the replacement). -/

/-- Walks the dot-separated path segments through nested dicts, as the
loop body of `SimpleMustache._get_value` does: a segment resolves only
when the current object is a dict containing it; otherwise `None` is
returned at once. -/
def walkPath : List Str → Value → Value
  | [], cur => cur
  | p :: ps, cur =>
      match cur with
      | .dict kvs =>
          match dget kvs p with
          | some v => walkPath ps v
          | none => .null
      | _ => .null

/-- `SimpleMustache._get_value(key, context)` (lines 77–104): empty key
resolves to `None`; a leading `$` is stripped; then the key is split on
`.` and walked through the nested dicts, `None` the moment a segment is
missing. -/
def getValue (key : Str) (context : Dict) : Value :=
  if key = [] then .null
  else
    let key := if key.head? = some '$' then key.tail else key
    walkPath (splitDots key) (.dict context)

/-- `SimpleMustache._is_truthy` (lines 106–119): `None` is falsy, a bool
is itself, a number is truthy iff non-zero, a string is truthy unless its
lowercase form is `"false"`, `"no"`, `"0"` or `""`, a list or dict is
truthy iff non-empty. -/
def isTruthy (v : Value) : Bool :=
  match v with
  | .null => false
  | .bool b => b
  | .int n => if n = 0 then false else true
  | .str s =>
      if pyLower s ∈ ([str! "false", str! "no", str! "0", str! ""] : List Str)
      then false else true
  | .list xs => !xs.isEmpty
  | .dict kvs => !kvs.isEmpty

/-- Scans for the lazy `(.*?)\x7d\x7d` closing a `\x7b\x7b` variable tag:
the first `\x7d\x7d` terminates the content; a newline before it makes
the whole tag fail to match (the variable pattern is compiled without
`DOTALL`, so `.` cannot cross a newline). Returns (content, rest). -/
def closeScan : Str → Option (Str × Str)
  | [] => none
  | [_] => none
  | c1 :: c2 :: cs =>
      if c1 = '}' ∧ c2 = '}' then some ([], cs)
      else if c1 = '\n' then none
      else (closeScan (c2 :: cs)).map fun p => (c1 :: p.1, p.2)

/-- Like `closeScan` but for the condition-block pattern, which is
compiled with `DOTALL`: newlines are allowed inside the tag. -/
def nameScan : Str → Option (Str × Str)
  | [] => none
  | [_] => none
  | c1 :: c2 :: cs =>
      if c1 = '}' ∧ c2 = '}' then some ([], cs)
      else (nameScan (c2 :: cs)).map fun p => (c1 :: p.1, p.2)

/-- Attempts to match the variable pattern `\x7b\x7b(.*?)\x7d\x7d` at the
head of the string; returns (tag content, rest after the tag). -/
def varAt : Str → Option (Str × Str)
  | c1 :: c2 :: cs => if c1 = '{' ∧ c2 = '{' then closeScan cs else none
  | _ => none

/-- The closing tag `\x7b\x7b/name\x7d\x7d` demanded by the backreference
in the condition-block pattern. -/
def closeTagOf (name : Str) : Str :=
  '{' :: '{' :: '/' :: (name ++ ['}', '}'])

/-- Scans for the lazy block body `(.*?)` followed by the backreferenced
closing tag: the first occurrence of the closing tag ends the block.
Returns (block, rest after the closing tag). -/
def blockScan (name : Str) : Str → Option (Str × Str)
  | [] => none
  | c :: cs =>
      if (closeTagOf name).isPrefixOf (c :: cs) then
        some ([], (c :: cs).drop (closeTagOf name).length)
      else
        (blockScan name cs).map fun p => (c :: p.1, p.2)

/-- Attempts to match the condition-block pattern
`\x7b\x7b#(.*?)\x7d\x7d(.*?)\x7b\x7b/\1\x7d\x7d` at the head of the
string; returns (name, block, rest).  The lazy first group ends at the
first `\x7d\x7d`; the embedding does not model the regex engine
backtracking the group past that point, which only matters for templates
whose closing tag does not repeat the text before the first `\x7d\x7d`
— no workflow template in the source or the claims is of that shape. -/
def condAt : Str → Option (Str × Str × Str)
  | c1 :: c2 :: c3 :: cs =>
      if c1 = '{' ∧ c2 = '{' ∧ c3 = '#' then
        (nameScan cs).bind fun p =>
          (blockScan p.1 p.2).map fun q => (p.1, q.1, q.2)
      else none
  | _ => none

/-- Leftmost match of the variable pattern: returns (text before the
match, tag content, rest after the match). -/
def findVarTag : Str → Option (Str × Str × Str)
  | [] => none
  | c :: cs =>
      match varAt (c :: cs) with
      | some (content, rest) => some ([], content, rest)
      | none => (findVarTag cs).map fun p => (c :: p.1, p.2.1, p.2.2)

/-- Leftmost match of the condition-block pattern: returns (text before
the match, name, block, rest after the match). -/
def findCondTag : Str → Option (Str × Str × Str × Str)
  | [] => none
  | c :: cs =>
      match condAt (c :: cs) with
      | some (n, b, r) => some ([], n, b, r)
      | none => (findCondTag cs).map fun p => (c :: p.1, p.2.1, p.2.2.1, p.2.2.2)

theorem closeScan_length {cs content rest : Str} :
    closeScan cs = some (content, rest) →
    content.length + 2 + rest.length = cs.length := by
  induction cs using closeScan.induct generalizing content rest with
  | case1 => intro h; simp [closeScan] at h
  | case2 => intro h; simp [closeScan] at h
  | case3 c1 c2 cs h12 =>
      intro h
      rw [closeScan, if_pos h12] at h
      simp only [Option.some.injEq, Prod.mk.injEq] at h
      obtain ⟨h1, h2⟩ := h
      subst h1; subst h2
      simp; omega
  | case4 c2 cs h12 =>
      intro h
      rw [closeScan, if_neg h12, if_pos rfl] at h
      exact absurd h (by simp)
  | case5 c1 c2 cs h12 hnl ih =>
      intro h
      rw [closeScan, if_neg h12, if_neg hnl] at h
      match hc : closeScan (c2 :: cs) with
      | none => rw [hc] at h; simp at h
      | some (a, r) =>
          rw [hc] at h
          simp only [Option.map_some'] at h
          simp only [Option.some.injEq, Prod.mk.injEq] at h
          obtain ⟨h1, h2⟩ := h
          subst h1; subst h2
          have := ih hc
          simp only [List.length_cons] at this ⊢
          omega

theorem nameScan_length {cs content rest : Str} :
    nameScan cs = some (content, rest) →
    content.length + 2 + rest.length = cs.length := by
  induction cs using nameScan.induct generalizing content rest with
  | case1 => intro h; simp [nameScan] at h
  | case2 => intro h; simp [nameScan] at h
  | case3 c1 c2 cs h12 =>
      intro h
      rw [nameScan, if_pos h12] at h
      simp only [Option.some.injEq, Prod.mk.injEq] at h
      obtain ⟨h1, h2⟩ := h
      subst h1; subst h2
      simp; omega
  | case4 c1 c2 cs h12 ih =>
      intro h
      rw [nameScan, if_neg h12] at h
      match hc : nameScan (c2 :: cs) with
      | none => rw [hc] at h; simp at h
      | some (a, r) =>
          rw [hc] at h
          simp only [Option.map_some'] at h
          simp only [Option.some.injEq, Prod.mk.injEq] at h
          obtain ⟨h1, h2⟩ := h
          subst h1; subst h2
          have := ih hc
          simp only [List.length_cons] at this ⊢
          omega

theorem blockScan_length {name cs block rest : Str} :
    blockScan name cs = some (block, rest) →
    block.length + (closeTagOf name).length + rest.length = cs.length := by
  induction cs using blockScan.induct name generalizing block rest with
  | case1 => intro h; simp [blockScan] at h
  | case2 c cs hpre =>
      intro h
      rw [blockScan, if_pos hpre] at h
      simp only [Option.some.injEq, Prod.mk.injEq] at h
      obtain ⟨h1, h2⟩ := h
      subst h1; subst h2
      have hle : (closeTagOf name).length ≤ (c :: cs).length :=
        List.IsPrefix.length_le (by simpa using hpre)
      simp only [List.length_nil, List.length_drop]
      omega
  | case3 c cs hpre ih =>
      intro h
      rw [blockScan, if_neg hpre] at h
      match hc : blockScan name cs with
      | none => rw [hc] at h; simp at h
      | some (a, r) =>
          rw [hc] at h
          simp only [Option.map_some'] at h
          simp only [Option.some.injEq, Prod.mk.injEq] at h
          obtain ⟨h1, h2⟩ := h
          subst h1; subst h2
          have := ih hc
          simp only [List.length_cons] at this ⊢
          omega

theorem varAt_length {s content rest : Str} :
    varAt s = some (content, rest) →
    content.length + 4 + rest.length = s.length := by
  intro h
  match s with
  | [] => simp [varAt] at h
  | [c] => simp [varAt] at h
  | c1 :: c2 :: cs =>
      rw [varAt] at h
      by_cases h12 : c1 = '{' ∧ c2 = '{'
      · rw [if_pos h12] at h
        have := closeScan_length h
        simp only [List.length_cons]
        omega
      · rw [if_neg h12] at h; exact absurd h (by simp)

theorem condAt_length {s name block rest : Str} :
    condAt s = some (name, block, rest) →
    rest.length + 5 + name.length + block.length + (closeTagOf name).length
      = s.length := by
  intro h
  match s with
  | [] => simp [condAt] at h
  | [c] => simp [condAt] at h
  | [c, d] => simp [condAt] at h
  | c1 :: c2 :: c3 :: cs =>
      rw [condAt] at h
      by_cases h123 : c1 = '{' ∧ c2 = '{' ∧ c3 = '#'
      · rw [if_pos h123] at h
        match hn : nameScan cs with
        | none => rw [hn] at h; simp at h
        | some (n, r1) =>
            rw [hn] at h
            simp only [Option.some_bind] at h
            match hb : blockScan n r1 with
            | none => rw [hb] at h; simp at h
            | some (b, r2) =>
                rw [hb] at h
                simp only [Option.map_some'] at h
                simp only [Option.some.injEq, Prod.mk.injEq] at h
                obtain ⟨h1, h2, h3⟩ := h
                subst h1; subst h2; subst h3
                have e1 := nameScan_length hn
                have e2 := blockScan_length hb
                simp only [List.length_cons] at e1 e2 ⊢
                omega
      · rw [if_neg h123] at h; exact absurd h (by simp)

theorem findVarTag_rest_length {s pre content rest : Str} :
    findVarTag s = some (pre, content, rest) →
    pre.length + content.length + 4 + rest.length = s.length := by
  induction s generalizing pre content rest with
  | nil => intro h; simp [findVarTag] at h
  | cons c cs ih =>
      intro h
      rw [findVarTag] at h
      match hv : varAt (c :: cs) with
      | some (a, r) =>
          rw [hv] at h
          simp only [Option.some.injEq, Prod.mk.injEq] at h
          obtain ⟨h1, h2, h3⟩ := h
          subst h1; subst h2; subst h3
          have := varAt_length hv
          simpa using this
      | none =>
          rw [hv] at h
          match hf : findVarTag cs with
          | none => rw [hf] at h; simp at h
          | some (p, a, r) =>
              rw [hf] at h
              simp only [Option.map_some'] at h
              simp only [Option.some.injEq, Prod.mk.injEq] at h
              obtain ⟨h1, h2, h3⟩ := h
              subst h1; subst h2; subst h3
              have := ih hf
              simp only [List.length_cons] at *
              omega

theorem findCondTag_rest_length {s pre name block rest : Str} :
    findCondTag s = some (pre, name, block, rest) →
    pre.length + rest.length + 5 + name.length + block.length
      + (closeTagOf name).length = s.length := by
  induction s generalizing pre name block rest with
  | nil => intro h; simp [findCondTag] at h
  | cons c cs ih =>
      intro h
      rw [findCondTag] at h
      match hv : condAt (c :: cs) with
      | some (n, b, r) =>
          rw [hv] at h
          simp only [Option.some.injEq, Prod.mk.injEq] at h
          obtain ⟨h1, h2, h3, h4⟩ := h
          subst h1; subst h2; subst h3; subst h4
          have := condAt_length hv
          simp only [List.length_nil, List.length_cons] at *
          omega
      | none =>
          rw [hv] at h
          match hf : findCondTag cs with
          | none => rw [hf] at h; simp at h
          | some (p, n, b, r) =>
              rw [hf] at h
              simp only [Option.map_some'] at h
              simp only [Option.some.injEq, Prod.mk.injEq] at h
              obtain ⟨h1, h2, h3, h4⟩ := h
              subst h1; subst h2; subst h3; subst h4
              have := ih hf
              simp only [List.length_cons] at *
              omega

/-- The `replace_variable` callback of `SimpleMustache._render_variables`
(lines 56–73): the stripped tag content is skipped (tag left verbatim)
when it starts with `#`, `^` or `/`; otherwise it is looked up with
`_get_value` and the match is replaced by `str(value)` when the value is
not `None`, and left verbatim when it is. -/
def replaceVar (context : Dict) (content : Str) : Str :=
  let varKey := pyTrim content
  if varKey.head? = some '#' ∨ varKey.head? = some '^' ∨ varKey.head? = some '/' then
    '{' :: '{' :: (content ++ ['}', '}'])
  else
    let v := getValue varKey context
    if notNull v then pyStr v
    else '{' :: '{' :: (content ++ ['}', '}'])

/-- Fuel-driven worker for `renderVars`: every match consumes at least
four characters, so fuel equal to the template length always suffices
(`renderVars_some` below recovers the natural recurrence). -/
def renderVarsGo (context : Dict) : Nat → Str → Str
  | 0, s => s
  | fuel + 1, s =>
      match findVarTag s with
      | none => s
      | some (pre, content, rest) =>
          pre ++ (replaceVar context content ++ renderVarsGo context fuel rest)

/-- `SimpleMustache._render_variables` (lines 51–75):
`re.sub(r'\x7b\x7b(.*?)\x7d\x7d', replace_variable, template)` — replaces
every variable tag left to right, never re-scanning a replacement. -/
def renderVars (context : Dict) (s : Str) : Str :=
  renderVarsGo context s.length s

/-- Fuel-driven worker for `renderCondBlocks`. -/
def renderCondBlocksGo (context : Dict) : Nat → Str → Str
  | 0, s => s
  | fuel + 1, s =>
      match findCondTag s with
      | none => s
      | some (pre, name, block, rest) =>
          pre ++ ((if isTruthy (getValue (pyTrim name) context) then block else [])
            ++ renderCondBlocksGo context fuel rest)

/-- `SimpleMustache._render_condition_blocks` (lines 25–49):
`re.sub(r'\x7b\x7b#(.*?)\x7d\x7d(.*?)\x7b\x7b/\1\x7d\x7d', replace_condition,
template, flags=re.DOTALL)` — each block is replaced by its content when
the value resolved at the stripped name is truthy, and by the empty
string otherwise. -/
def renderCondBlocks (context : Dict) (s : Str) : Str :=
  renderCondBlocksGo context s.length s

theorem renderVarsGo_nil (context : Dict) (fuel : Nat) :
    renderVarsGo context fuel [] = [] := by
  cases fuel <;> simp [renderVarsGo, findVarTag]

theorem renderVarsGo_fuel {context : Dict} {f g : Nat} {s : Str} :
    s.length ≤ f → s.length ≤ g →
    renderVarsGo context f s = renderVarsGo context g s := by
  induction f generalizing g s with
  | zero =>
      intro h1 _
      have : s = [] := List.eq_nil_of_length_eq_zero (Nat.le_zero.mp h1)
      subst this
      rw [renderVarsGo_nil, renderVarsGo_nil]
  | succ f ih =>
      intro h1 h2
      match s with
      | [] => rw [renderVarsGo_nil, renderVarsGo_nil]
      | c :: cs =>
          match g with
          | 0 => simp at h2
          | g + 1 =>
              cases hf : findVarTag (c :: cs) with
              | none => simp only [renderVarsGo, hf]
              | some t =>
                  obtain ⟨pre, content, rest⟩ := t
                  have hlen := findVarTag_rest_length hf
                  simp only [List.length_cons] at hlen h1 h2
                  simp only [renderVarsGo, hf]
                  rw [ih (g := g) (by omega) (by omega)]

/-- The defining recurrence of the variable pass, no-match case. -/
theorem renderVars_none {context : Dict} {s : Str}
    (h : findVarTag s = none) : renderVars context s = s := by
  unfold renderVars
  match s with
  | [] => exact renderVarsGo_nil ..
  | c :: cs => rw [List.length_cons, renderVarsGo, h]

/-- The defining recurrence of the variable pass, match case. -/
theorem renderVars_some {context : Dict} {s pre content rest : Str}
    (h : findVarTag s = some (pre, content, rest)) :
    renderVars context s =
      pre ++ (replaceVar context content ++ renderVars context rest) := by
  unfold renderVars
  have hlen := findVarTag_rest_length h
  match s with
  | [] => simp [findVarTag] at h
  | c :: cs =>
      simp only [List.length_cons, renderVarsGo, h]
      simp only [List.length_cons] at hlen
      rw [renderVarsGo_fuel (g := rest.length) (by omega) (by omega)]

theorem renderCondBlocksGo_nil (context : Dict) (fuel : Nat) :
    renderCondBlocksGo context fuel [] = [] := by
  cases fuel <;> simp [renderCondBlocksGo, findCondTag]

theorem renderCondBlocksGo_fuel {context : Dict} {f g : Nat} {s : Str} :
    s.length ≤ f → s.length ≤ g →
    renderCondBlocksGo context f s = renderCondBlocksGo context g s := by
  induction f generalizing g s with
  | zero =>
      intro h1 _
      have : s = [] := List.eq_nil_of_length_eq_zero (Nat.le_zero.mp h1)
      subst this
      rw [renderCondBlocksGo_nil, renderCondBlocksGo_nil]
  | succ f ih =>
      intro h1 h2
      match s with
      | [] => rw [renderCondBlocksGo_nil, renderCondBlocksGo_nil]
      | c :: cs =>
          match g with
          | 0 => simp at h2
          | g + 1 =>
              cases hf : findCondTag (c :: cs) with
              | none => simp only [renderCondBlocksGo, hf]
              | some t =>
                  obtain ⟨pre, name, block, rest⟩ := t
                  have hlen := findCondTag_rest_length hf
                  simp only [List.length_cons] at hlen h1 h2
                  simp only [renderCondBlocksGo, hf]
                  rw [ih (g := g) (by omega) (by omega)]

/-- The defining recurrence of the condition pass, no-match case. -/
theorem renderCondBlocks_none {context : Dict} {s : Str}
    (h : findCondTag s = none) : renderCondBlocks context s = s := by
  unfold renderCondBlocks
  match s with
  | [] => exact renderCondBlocksGo_nil ..
  | c :: cs => rw [List.length_cons, renderCondBlocksGo, h]

/-- The defining recurrence of the condition pass, match case. -/
theorem renderCondBlocks_some {context : Dict} {s pre name block rest : Str}
    (h : findCondTag s = some (pre, name, block, rest)) :
    renderCondBlocks context s =
      pre ++ ((if isTruthy (getValue (pyTrim name) context) then block else [])
        ++ renderCondBlocks context rest) := by
  unfold renderCondBlocks
  have hlen := findCondTag_rest_length h
  match s with
  | [] => simp [findCondTag] at h
  | c :: cs =>
      simp only [List.length_cons, renderCondBlocksGo, h]
      simp only [List.length_cons] at hlen
      rw [renderCondBlocksGo_fuel (g := rest.length) (by omega) (by omega)]

/-- `SimpleMustache.render` (lines 9–23): the empty template is returned
as is; otherwise the variable pass runs first and the condition-block
pass second. -/
def render (template : Str) (context : Dict) : Str :=
  if template = [] then template
  else renderCondBlocks context (renderVars context template)

/-! ## Input resolution for TOOL steps

`WorkflowExecutor._resolve_inputs_with_mustache`
(`src/ultrarag/core/workflow_executor.py`, lines 399–439). -/

/-- Substring containment, Python's `in` on strings. -/
def containsSub (pat : Str) : Str → Bool
  | [] => pat.isPrefixOf []
  | c :: cs => pat.isPrefixOf (c :: cs) || containsSub pat cs

/-- `re.match(r'^\x7b\x7b(.*)\x7d\x7d$', s)` — the pure-variable-reference
test of `_resolve_inputs_with_mustache` (line 413).  The group is greedy,
so it matches exactly when the string starts with `\x7b\x7b`, ends with
`\x7d\x7d`, is at least 4 characters long and has no newline in between
(the pattern is compiled without `DOTALL`); the group is then everything
between the outermost braces. -/
def pureVarMatch (s : Str) : Option Str :=
  if s.length ≥ 4 ∧ s.take 2 = ['{', '{'] ∧ s.drop (s.length - 2) = ['}', '}'] then
    let mid := (s.drop 2).take (s.length - 4)
    if '\n' ∈ mid then none else some mid
  else none

/-- The per-value body of `_resolve_inputs_with_mustache` (lines 407–437):
a non-string value, or a string without `\x7b\x7b`/`\x7d\x7d`, passes
through; a pure variable reference resolves to the context value itself
(whatever its type) and stays the original string when the lookup returns
`None`; any other templated string is rendered to a string with
`SimpleMustache.render`. -/
def resolveInputValue (v : Value) (context : Dict) : Value :=
  match v with
  | .str s =>
      if containsSub ['{', '{'] s || containsSub ['}', '}'] s then
        match pureVarMatch (pyTrim s) with
        | some g =>
            let resolved := getValue (pyTrim g) context
            if notNull resolved then resolved else .str s
        | none => .str (render s context)
      else .str s
  | w => w

/-- `_resolve_inputs_with_mustache` over the whole `inputs` dict. -/
def resolveInputs (inputs : Dict) (context : Dict) : Dict :=
  inputs.map fun kv => (kv.1, resolveInputValue kv.2 context)

/-! ## `ServerManager`

`src/ultrarag/core/server_manager.py`.  A manager state is the port pool
and the running-server table (tool type ↦ allocated port; the per-server
`thread`, `instance` and `config` entries have no effect on the
behaviour the claims are about and are not modelled).  `set.pop()` draws
an unspecified element of the Python set; the embedding draws the head
of the pool list.  Instance construction
(`ToolRegistry.create_tool_instance`, which raises for an unregistered
tool or a missing class file) is abstracted as a `CreateEnv` saying for
each tool name whether construction succeeds or raises. -/

/-- Outcome of `ToolRegistry.create_tool_instance` per tool name. -/
def CreateEnv : Type := Str → Except Str Unit

/-- `ServerManager` state: the port pool and the running-server table. -/
structure MgrSt where
  pool : List Nat
  servers : List (Str × Nat)

/-- `ServerManager.__init__`: empty table, pool `set(range(8000, 8100))`. -/
def mgrInit : MgrSt :=
  { pool := List.range' 8000 100, servers := [] }

/-- The `RuntimeError` message raised on pool exhaustion. -/
def noPortMsg : Str := str! "无可用端口"

/-- `ServerManager.start_server` (lines 15–53): a tool type already in
the table returns its existing port with the state unchanged; otherwise
an empty pool raises `RuntimeError`; otherwise one port is drawn from
the pool *before* the instance is constructed, so a construction failure
propagates with the port neither recorded nor returned to the pool. -/
def startServer (cenv : CreateEnv) (toolName : Str) (st : MgrSt) :
    Except Str Nat × MgrSt :=
  match dget st.servers toolName with
  | some port => (.ok port, st)
  | none =>
      match st.pool with
      | [] => (.error noPortMsg, st)
      | port :: rest =>
          match cenv toolName with
          | .error e => (.error e, { st with pool := rest })
          | .ok _ =>
              (.ok port,
               { pool := rest, servers := dset st.servers toolName port })

/-- `ServerManager.stop_server` (lines 68–74): removes the entry, if
any, and returns its port to the pool. -/
def stopServer (toolName : Str) (st : MgrSt) : MgrSt :=
  match dget st.servers toolName with
  | some port =>
      { pool := st.pool ++ [port], servers := dremove st.servers toolName }
  | none => st

/-- Behaviour of the running tool instances: what
`getattr(instance, method)(**kwargs)` returns (`.ok` with the result
envelope dict) or raises (`.error` with the message; a missing method's
`ValueError` is one such case).  Tools are external collaborators, so
this is a parameter of the model; per the tool contract the result is a
dict envelope. -/
def ToolEnv : Type := Str → Str → Dict → Except Str Dict

/-- `ServerManager.call_tool_method` (lines 76–87): raises `ValueError`
if no server is running for the tool type, otherwise dispatches into the
instance. -/
def callToolMethod (env : ToolEnv) (mgr : MgrSt) (toolName method : Str)
    (kwargs : Dict) : Except Str Dict :=
  match dget mgr.servers toolName with
  | none => .error (str! "服务器未运行: " ++ toolName)
  | some _ => env toolName method kwargs

/-! ## `WorkflowExecutor`

`src/ultrarag/core/workflow_executor.py`, lines 121–641.  Step
dictionaries are embedded as the inductive `Step`; a step's `"step"`
name key is modelled as always present (the source substitutes constant
default names when it is missing, which no claim exercises).  The
`interactive_mode` / `provided_params` run flags are threaded through
the source's step handlers but never read by any of them, so they are
not modelled.  `print` output, the `verbose` diagnostics and
`_display_detailed_data` do not affect the recorded state. -/

/-- `", ".join(...)`. -/
def joinComma : List Str → Str
  | [] => []
  | [s] => s
  | s :: rest => s ++ (',' :: ' ' :: joinComma rest)

/-- The numeric value of a non-empty all-digit string. -/
def digitsVal : Str → Option Nat
  | [] => none
  | ds =>
      if ds.all Char.isDigit then
        some (ds.foldl (fun acc c => acc * 10 + (c.toNat - 48)) 0)
      else none

/-- Python `int(s)`: optional surrounding whitespace, an optional sign
and a non-empty digit string; anything else raises `ValueError`.
(Python additionally allows `_` digit separators; no claim uses them.) -/
def pyInt (s : Str) : Option Int :=
  match pyTrim s with
  | '+' :: ds => (digitsVal ds).map Int.ofNat
  | '-' :: ds => (digitsVal ds).map fun n => -(n : Int)
  | ds => (digitsVal ds).map Int.ofNat

/-- The `type` field of an INPUT step's validation config.  The claims
exercise `string`, `integer` and `choice`; the source's `float` branch
(floating point) is outside the model and an unrecognized type string
falls through to the accept-anything branch, modelled as `other`. -/
inductive InType where
  | string
  | integer
  | choice
  | other

/-- The validation-relevant fields of an INPUT step's `config` dict. -/
structure ValConfig where
  type : InType := .string
  required : Bool := false
  minLength : Option Nat := none
  maxLength : Option Nat := none
  minV : Option Int := none
  maxV : Option Int := none
  choices : List Str := []

/-- The `max_length` half of the string branch of `_validate_input`
(lines 580–583): skipped when the bound is absent or `0` (the source
tests `if max_length and ...`). -/
def validateMaxLength (value : Str) (cfg : ValConfig) : Bool × Option Value × Str :=
  match cfg.maxLength with
  | some m =>
      if m ≠ 0 ∧ value.length > m then
        (false, none,
         str! "输入长度不能超过 " ++ (toString m).data ++ str! " 个字符")
      else (true, some (.str value), [])
  | none => (true, some (.str value), [])

/-- `WorkflowExecutor._validate_input` (lines 561–619), returning the
source's `(is_valid, validated_value, error_message)` triple.  Note the
length bounds are tested with `if min_length and ...`, so a bound of `0`
is skipped (falsy), while the numeric bounds use `is not None`.  The
`ValueError` message text of `int()` is abbreviated (the claims only
depend on validity, value and the distinction between failures). -/
def validateInput (value : Str) (cfg : ValConfig) : Bool × Option Value × Str :=
  if cfg.required ∧ value = [] then
    (false, none, str! "此字段为必填项")
  else if value = [] then
    (true, none, [])
  else
    match cfg.type with
    | .string =>
        match cfg.minLength with
        | some m =>
            if m ≠ 0 ∧ value.length < m then
              (false, none,
               str! "输入长度不能少于 " ++ (toString m).data ++ str! " 个字符")
            else validateMaxLength value cfg
        | none => validateMaxLength value cfg
    | .integer =>
        match pyInt value with
        | none =>
            (false, none, str! "输入格式错误: invalid literal for int: " ++ value)
        | some n =>
            match cfg.minV with
            | some m =>
                if n < m then
                  (false, none, str! "数值不能小于 " ++ (toString m).data)
                else
                  match cfg.maxV with
                  | some M =>
                      if n > M then
                        (false, none, str! "数值不能大于 " ++ (toString M).data)
                      else (true, some (.int n), [])
                  | none => (true, some (.int n), [])
            | none =>
                match cfg.maxV with
                | some M =>
                    if n > M then
                      (false, none, str! "数值不能大于 " ++ (toString M).data)
                    else (true, some (.int n), [])
                | none => (true, some (.int n), [])
    | .choice =>
        if value ∈ cfg.choices then (true, some (.str value), [])
        else (false, none, str! "请输入有效的选项: " ++ joinComma cfg.choices)
    | .other => (true, some (.str value), [])

/-- A workflow step (`§3 Step` of the spec; the `type` key selects the
constructor).  For TOOL steps, `storeAs` is
`step.get("store_result_as") or step.get("output")`.  The source's LOOP
step (`_execute_loop_step`, lines 506–526) only re-runs a nested step
list through `_execute_steps` the configured number of times on the same
shared state; no claim exercises a LOOP body, and nesting step lists
inside `Step` would force the interpreter out of structural recursion,
so the step model covers the remaining step types (`branch`/`router`,
like the source, are recorded-nothing no-ops). -/
inductive Step where
  | print (name message : Str)
  | tool (name toolName method : Str) (inputs : Dict) (storeAs : Option Str)
  | input (name prompt dflt : Str) (output : Option Str) (cfg : ValConfig)
  | setVariable (name : Str) (varname : Option Str) (value : Value)
  | branch (name : Str)
  | router (name : Str)
  | unknown (name stepType : Str)

/-- Executor state: `self.stored_data`, `self.results`,
`self.tool_mapping`, the manager, the pending interactive input lines
(stdin) and the `verbose` flag. -/
structure ExecSt where
  storedData : Dict
  results : List (Str × Value)
  toolMapping : List (Str × Str)
  mgr : MgrSt
  stdin : List Str
  verbose : Bool

/-- A `{"success": True, "result": v}` record. -/
def okRecord (v : Value) : Value :=
  .dict [(str! "success", .bool true), (str! "result", v)]

/-- A `{"success": False, "error": e}` record. -/
def errRecord (e : Value) : Value :=
  .dict [(str! "success", .bool false), (str! "error", e)]

/-- The flattened view a step result gets in the merged context
(`_build_full_context`, lines 449–454): a dict containing a `"result"`
key is replaced by that payload; anything else is passed through. -/
def flattenResult : Value → Value
  | .dict kvs =>
      match dget kvs (str! "result") with
      | some r => r
      | none => .dict kvs
  | v => v

/-- `WorkflowExecutor._build_full_context` (lines 441–474): starts from
`stored_data`, then overwrites with the flattened step results in
insertion order, then adds the `stored_data` / `results` accessors.
(The `context` parameter is always the empty dict in the runs the source
performs, and is not modelled.) -/
def buildFullContext (st : ExecSt) : Dict :=
  let c := st.storedData
  let c := st.results.foldl (fun c kv => dset c kv.1 (flattenResult kv.2)) c
  let c := dset c (str! "stored_data") (.dict st.storedData)
  dset c (str! "results") (.dict st.results)

/-- `WorkflowExecutor._execute_step` (lines 178–215) together with the
per-type handlers (lines 217–544).  Returns the step's Python return
value (`none` for `None`) and the updated state. -/
def executeStep (env : ToolEnv) (step : Step) (st : ExecSt) :
    Option Value × ExecSt :=
  match step with
  | .print name message =>
      let full := buildFullContext st
      let record := okRecord (.str (render message full))
      (some record, { st with results := dset st.results name record })
  | .tool name toolName method inputs storeAs =>
      match dget st.toolMapping toolName with
      | none =>
          let record := errRecord (.str (str! "工具未找到: " ++ toolName))
          (none, { st with results := dset st.results name record })
      | some serverType =>
          let full := buildFullContext st
          let resolved := resolveInputs inputs full
          match callToolMethod env st.mgr serverType method resolved with
          | .error e =>
              let record := errRecord (.str e)
              (none, { st with results := dset st.results name record })
          | .ok result =>
              let st1 := { st with results := dset st.results name (okRecord (.dict result)) }
              let st2 := match storeAs with
                | some v => { st1 with storedData := dset st1.storedData v (.dict result) }
                | none => st1
              let st3 := { st2 with storedData := dset st2.storedData name (.dict result) }
              if pyTruthy ((dget result (str! "success")).getD (.bool false)) then
                (some (.dict result), st3)
              else
                let emsg := (dget result (str! "error")).getD (.str (str! "未知错误"))
                (some (.dict result), { st3 with results := dset st3.results name (errRecord emsg) })
  | .input name _prompt dflt output cfg =>
      match output with
      | none =>
          let record := errRecord (.str (str! "输入步骤缺少 output 字段"))
          (none, { st with results := dset st.results name record })
      | some varName =>
          match st.stdin with
          | [] =>
              let record := errRecord (.str (str! "输入步骤失败: EOF"))
              (none, { st with results := dset st.results name record })
          | line :: restIn =>
              let raw := pyTrim line
              let userInput := if raw = [] ∧ dflt ≠ [] then dflt else raw
              let v := validateInput userInput cfg
              if v.1 then
                let stored := v.2.1.getD (.str userInput)
                let st1 := { st with stdin := restIn }
                let st2 := { st1 with storedData := dset st1.storedData varName stored }
                (some stored, { st2 with results := dset st2.results name (okRecord stored) })
              else
                let record := errRecord (.str (str! "输入验证失败: " ++ v.2.2))
                let st1 := { st with stdin := restIn }
                (none, { st1 with results := dset st1.results name record })
  | .setVariable name varname value =>
      match varname with
      | none =>
          let record := errRecord (.str (str! "设置变量步骤缺少 variable 字段"))
          (none, { st with results := dset st.results name record })
      | some varName =>
          let full := buildFullContext st
          let resolved := match value with
            | .str s => .str (render s full)
            | v => v
          let record := okRecord resolved
          let st1 := { st with storedData := dset st.storedData varName resolved }
          (some record, { st1 with results := dset st1.results name record })
  | .branch _name => (none, st)
  | .router _name => (none, st)
  | .unknown name stepType =>
      let record := errRecord (.str (str! "未知的步骤类型: " ++ stepType))
      (none, { st with results := dset st.results name record })

/-- `WorkflowExecutor._execute_steps` (lines 165–176): runs the steps in
declared order, returning the last non-`None` step result. -/
def executeSteps (env : ToolEnv) (steps : List Step) (st : ExecSt) :
    Option Value × ExecSt :=
  match steps with
  | [] => (none, st)
  | s :: rest =>
      let r := executeStep env s st
      let r2 := executeSteps env rest r.2
      ((if r2.1.isSome then r2.1 else r.1), r2.2)

/-- One entry of the workflow's declared `tools` list (its `parameters`
are only forwarded to the unmodelled server config). -/
structure ToolConfig where
  name : Str
  serverType : Str

/-- `WorkflowExecutor._start_tool_server` (lines 547–559): always
records the tool-name → server-type mapping, but — as written in the
source — performs the Instance Manager `start_server` call only inside
the `if self.verbose:` block.  An exception raised by `start_server`
propagates out of `execute_workflow`. -/
def startToolServer (cenv : CreateEnv) (tc : ToolConfig) (st : ExecSt) :
    Except Str ExecSt :=
  let st := { st with toolMapping := dset st.toolMapping tc.name tc.serverType }
  if st.verbose then
    match startServer cenv tc.serverType st.mgr with
    | (.error e, _) => .error e
    | (.ok _, mgr') => .ok { st with mgr := mgr' }
  else .ok st

/-- The tool-startup loop of `execute_workflow` (lines 152–154). -/
def startAllTools (cenv : CreateEnv) : List ToolConfig → ExecSt → Except Str ExecSt
  | [], st => .ok st
  | tc :: rest, st =>
      match startToolServer cenv tc st with
      | .error e => .error e
      | .ok st' => startAllTools cenv rest st'

/-- A workflow document as consumed by `execute_workflow`: the declared
tools, the seed variables and the ordered step list. -/
structure WorkflowConfig where
  tools : List ToolConfig
  vars : Dict
  steps : List Step

/-- `WorkflowExecutor.execute_workflow` (lines 133–163) on a freshly
constructed executor: seeds `stored_data` from the declared variables,
starts the declared tools, runs the steps in order.  The source returns
`self.results`; the model returns the final executor state, whose
`results` field is that value. -/
def executeWorkflow (cenv : CreateEnv) (env : ToolEnv) (cfg : WorkflowConfig)
    (mgr0 : MgrSt) (verbose : Bool) (stdin : List Str) : Except Str ExecSt :=
  let st : ExecSt :=
    { storedData := cfg.vars, results := [], toolMapping := [],
      mgr := mgr0, stdin := stdin, verbose := verbose }
  match startAllTools cenv cfg.tools st with
  | .error e => .error e
  | .ok st' => .ok (executeSteps env cfg.steps st').2

/-! ## Association-list lemmas -/

theorem dget_dset_self {α : Type} (l : List (Str × α)) (k : Str) (v : α) :
    dget (dset l k v) k = some v := by
  induction l with
  | nil => simp [dget, dset]
  | cons kv rest ih =>
      obtain ⟨k', w⟩ := kv
      by_cases h : k' = k
      · subst h; simp [dget, dset]
      · simp [dget, dset, h, ih]

theorem dget_dset_ne {α : Type} (l : List (Str × α)) {k q : Str}
    (h : k ≠ q) (v : α) : dget (dset l k v) q = dget l q := by
  induction l with
  | nil => simp [dget, dset, h]
  | cons kv rest ih =>
      obtain ⟨k', w⟩ := kv
      by_cases hk : k' = k
      · subst hk; simp [dget, dset, h]
      · by_cases hq : k' = q
        · subst hq; simp [dget, dset, hk]
        · simp [dget, dset, hk, hq, ih]

theorem dget_none_iff {α : Type} {l : List (Str × α)} {k : Str} :
    dget l k = none ↔ k ∉ l.map Prod.fst := by
  induction l with
  | nil => simp [dget]
  | cons kv rest ih =>
      obtain ⟨k', w⟩ := kv
      by_cases h : k' = k
      · subst h
        constructor
        · intro hh
          rw [dget, if_pos rfl] at hh
          exact Option.noConfusion hh
        · intro hh
          refine absurd ?_ hh
          rw [List.map_cons]
          exact List.mem_cons_self _ _
      · rw [dget, if_neg h, List.map_cons, ih]
        constructor
        · intro hh hmem
          rcases List.mem_cons.mp hmem with h1 | h2
          · exact h h1.symm
          · exact hh h2
        · intro hh hmem
          exact hh (List.mem_cons_of_mem _ hmem)

theorem dset_absent {α : Type} {l : List (Str × α)} {k : Str}
    (h : dget l k = none) (v : α) : dset l k v = l ++ [(k, v)] := by
  induction l with
  | nil => simp [dset]
  | cons kv rest ih =>
      obtain ⟨k', w⟩ := kv
      by_cases hk : k' = k
      · subst hk; simp [dget] at h
      · simp [dget, hk] at h
        simp [dset, hk, ih h]

theorem dget_split {α : Type} {l : List (Str × α)} {k : Str} {v : α}
    (h : dget l k = some v) :
    ∃ l1 l2, l = l1 ++ (k, v) :: l2 ∧ dremove l k = l1 ++ l2 := by
  induction l with
  | nil => simp [dget] at h
  | cons kv rest ih =>
      obtain ⟨k', w⟩ := kv
      by_cases hk : k' = k
      · subst hk
        simp [dget] at h
        subst h
        refine ⟨[], rest, by simp, by simp [dremove]⟩
      · simp [dget, hk] at h
        obtain ⟨l1, l2, hl, hr⟩ := ih h
        refine ⟨(k', w) :: l1, l2, by simp [hl], by simp [dremove, hk, hr]⟩

theorem foldl_dset_absent {l : List (Str × Value)} (f : Value → Value)
    {k : Str} (h : k ∉ l.map Prod.fst) (c : Dict) :
    dget (l.foldl (fun c kv => dset c kv.1 (f kv.2)) c) k = dget c k := by
  induction l generalizing c with
  | nil => rfl
  | cons kv rest ih =>
      obtain ⟨k', w⟩ := kv
      simp only [List.map_cons, List.mem_cons] at h
      push_neg at h
      simp only [List.foldl_cons]
      rw [ih h.2, dget_dset_ne _ (Ne.symm h.1)]

theorem foldl_dset_present {l : List (Str × Value)} (f : Value → Value)
    {k : Str} {v : Value} (h : (l.map Prod.fst).Nodup)
    (hv : dget l k = some v) (c : Dict) :
    dget (l.foldl (fun c kv => dset c kv.1 (f kv.2)) c) k = some (f v) := by
  induction l generalizing c with
  | nil => simp [dget] at hv
  | cons kv rest ih =>
      obtain ⟨k', w⟩ := kv
      simp only [List.map_cons, List.nodup_cons] at h
      simp only [List.foldl_cons]
      by_cases hk : k' = k
      · subst hk
        rw [dget, if_pos rfl] at hv
        injection hv with hv
        subst hv
        rw [foldl_dset_absent f h.1, dget_dset_self]
      · rw [dget, if_neg hk] at hv
        exact ih h.2 hv _

/-! ## Claim-level observation helpers and canonical templates -/

/-- The template consisting of exactly one interpolation of `p`:
`\x7b\x7bp\x7d\x7d`. -/
def tagOf (p : Str) : Str := '{' :: '{' :: (p ++ ['}', '}'])

/-- The template consisting of exactly one conditional block:
`\x7b\x7b#name\x7d\x7dbody\x7b\x7b/name\x7d\x7d`. -/
def condTmpl (name body : Str) : Str :=
  '{' :: '{' :: '#' :: (name ++ ['}', '}'] ++ body ++ closeTagOf name)

/-! ## Template lemmas for a symbolic path -/

theorem dropWhile_cons_false {q : Char → Bool} {c : Char} {l : Str}
    (h : q c = false) : List.dropWhile q (c :: l) = c :: l := by
  simp [List.dropWhile, h]

theorem tagOf_append (p : Str) : tagOf p = (['{', '{'] ++ p) ++ ['}', '}'] := by
  simp [tagOf]

theorem pyTrim_tagOf (p : Str) : pyTrim (tagOf p) = tagOf p := by
  have h1 : List.dropWhile isPySpace (tagOf p) = tagOf p :=
    dropWhile_cons_false (by decide)
  have h2 : (tagOf p).reverse = '}' :: ('}' :: (p.reverse ++ ['{', '{'])) := by
    rw [tagOf_append]
    simp
  rw [pyTrim, h1, h2, dropWhile_cons_false (by decide), ← h2,
    List.reverse_reverse]

theorem pureVarMatch_tagOf {p : Str} (h : '\n' ∉ p) :
    pureVarMatch (tagOf p) = some p := by
  have hlen : (tagOf p).length = p.length + 4 := by simp [tagOf]
  have htake : (tagOf p).take 2 = ['{', '{'] := by simp [tagOf]
  have hdrop : (tagOf p).drop ((tagOf p).length - 2) = ['}', '}'] := by
    rw [hlen, tagOf_append,
      show p.length + 4 - 2 = (['{', '{'] ++ p : Str).length from by simp]
    exact List.drop_left _ _
  have hmid : ((tagOf p).drop 2).take ((tagOf p).length - 4) = p := by
    rw [hlen, tagOf_append, List.append_assoc,
      show (2 : Nat) = (['{', '{'] : Str).length from rfl, List.drop_left,
      show p.length + 4 - 4 = p.length from by omega]
    exact List.take_left ..
  rw [pureVarMatch, if_pos ⟨by omega, htake, hdrop⟩]
  simp only [hmid]
  rw [if_neg h]

theorem closeScan_append {p rest : Str}
    (h : ∀ c ∈ p, c ≠ '}' ∧ c ≠ '\n') :
    closeScan (p ++ '}' :: '}' :: rest) = some (p, rest) := by
  induction p with
  | nil => simp [closeScan]
  | cons c cs ih =>
      have hc := h c (List.mem_cons_self ..)
      have hcs : ∀ x ∈ cs, x ≠ '}' ∧ x ≠ '\n' :=
        fun x hx => h x (List.mem_cons_of_mem _ hx)
      rcases he : cs ++ '}' :: '}' :: rest with _ | ⟨d, tail⟩
      · exact absurd he (by simp)
      · rw [List.cons_append, he, closeScan,
          if_neg (fun hdd => hc.1 hdd.1), if_neg hc.2, ← he, ih hcs]
        rfl

theorem findVarTag_cons (c : Char) (cs : Str) :
    findVarTag (c :: cs) =
      match varAt (c :: cs) with
      | some (content, rest) => some ([], content, rest)
      | none => (findVarTag cs).map fun p => (c :: p.1, p.2.1, p.2.2) := rfl

theorem findCondTag_cons (c : Char) (cs : Str) :
    findCondTag (c :: cs) =
      match condAt (c :: cs) with
      | some (n, b, r) => some ([], n, b, r)
      | none => (findCondTag cs).map fun p => (c :: p.1, p.2.1, p.2.2.1, p.2.2.2) := rfl

theorem findVarTag_tagOf {p : Str}
    (h : ∀ c ∈ p, c ≠ '}' ∧ c ≠ '\n') :
    findVarTag (tagOf p) = some ([], p, []) := by
  have hv : varAt ('{' :: '{' :: (p ++ ['}', '}'])) = some (p, []) := by
    rw [varAt, if_pos ⟨rfl, rfl⟩]
    exact closeScan_append h
  rw [tagOf, findVarTag_cons, hv]

theorem replaceVar_keep {context : Dict} {p : Str}
    (htrim : pyTrim p = p)
    (hhead : p.head? ≠ some '#' ∧ p.head? ≠ some '^' ∧ p.head? ≠ some '/')
    (hval : getValue p context = .null) :
    replaceVar context p = tagOf p := by
  rw [replaceVar]
  simp only [htrim]
  rw [if_neg (by push_neg; exact ⟨hhead.1, hhead.2.1, hhead.2.2⟩), hval]
  rfl

theorem condAt_cons_ne {c : Char} {l : Str} (h : c ≠ '{') :
    condAt (c :: l) = none := by
  match l with
  | [] => rfl
  | [d] => rfl
  | d :: e :: tail => rw [condAt, if_neg (fun hc => h hc.1)]

theorem condAt_third_ne {c : Char} {l : Str} (h : c ≠ '#') (a b : Char) :
    condAt (a :: b :: c :: l) = none := by
  rw [condAt, if_neg (fun hc => h hc.2.2)]

theorem condAt_second_ne {c : Char} {l : Str} (h : c ≠ '{') (a : Char) :
    condAt (a :: c :: l) = none := by
  match l with
  | [] => rfl
  | d :: tail => rw [condAt, if_neg (fun hc => h hc.2.1)]

theorem findCondTag_append_none {l : Str} (h : ∀ c ∈ l, c ≠ '{') :
    findCondTag (l ++ ['}', '}']) = none := by
  induction l with
  | nil => rfl
  | cons c cs ih =>
      have hc := h c (List.mem_cons_self ..)
      have hcs : ∀ x ∈ cs, x ≠ '{' :=
        fun x hx => h x (List.mem_cons_of_mem _ hx)
      rw [List.cons_append, findCondTag_cons, condAt_cons_ne hc, ih hcs]
      rfl

theorem findCondTag_tagOf {p : Str}
    (hbrace : ∀ c ∈ p, c ≠ '{' ∧ c ≠ '}')
    (hhead : p.head? ≠ some '#') :
    findCondTag (tagOf p) = none := by
  have h3 : condAt ('{' :: '{' :: (p ++ ['}', '}'])) = none := by
    match hp : p with
    | [] => rfl
    | c :: cs =>
        rw [List.cons_append]
        refine condAt_third_ne ?_ '{' '{'
        intro hc
        apply hhead
        rw [hc]
        rfl
  have h2 : condAt ('{' :: (p ++ ['}', '}'])) = none := by
    match hp : p with
    | [] => rfl
    | c :: cs =>
        rw [List.cons_append]
        exact condAt_second_ne (hbrace c (by simp [hp])).1 '{'
  rw [tagOf, findCondTag_cons, h3, findCondTag_cons, h2,
    findCondTag_append_none (fun c hc => (hbrace c hc).1)]
  rfl

/-- The variable pass leaves a single unresolved interpolation verbatim. -/
theorem renderVars_tagOf_keep {context : Dict} {p : Str}
    (hbn : ∀ c ∈ p, c ≠ '{' ∧ c ≠ '}' ∧ c ≠ '\n')
    (htrim : pyTrim p = p)
    (hhead : p.head? ≠ some '#' ∧ p.head? ≠ some '^' ∧ p.head? ≠ some '/')
    (hval : getValue p context = .null) :
    renderVars context (tagOf p) = tagOf p := by
  rw [renderVars_some (findVarTag_tagOf (fun c hc => ⟨(hbn c hc).2.1, (hbn c hc).2.2⟩)),
    replaceVar_keep htrim hhead hval,
    renderVars_none (by rfl)]
  simp

/-- `render` on a single unresolved interpolation returns it verbatim. -/
theorem render_tagOf_absent {context : Dict} {p : Str}
    (hbn : ∀ c ∈ p, c ≠ '{' ∧ c ≠ '}' ∧ c ≠ '\n')
    (htrim : pyTrim p = p)
    (hhead : p.head? ≠ some '#' ∧ p.head? ≠ some '^' ∧ p.head? ≠ some '/')
    (hval : getValue p context = .null) :
    render (tagOf p) context = tagOf p := by
  rw [render, if_neg (by simp [tagOf]), renderVars_tagOf_keep hbn htrim hhead hval,
    renderCondBlocks_none
      (findCondTag_tagOf (fun c hc => ⟨(hbn c hc).1, (hbn c hc).2.1⟩) hhead.1)]

/-- A pure variable-reference input resolves to the context value itself
whenever the lookup does not return `None`. -/
theorem resolveInputValue_pure {context : Dict} {p : Str} {v : Value}
    (hnl : '\n' ∉ p) (htrim : pyTrim p = p)
    (hval : getValue p context = v) (hnn : notNull v = true) :
    resolveInputValue (.str (tagOf p)) context = v := by
  rw [resolveInputValue]
  have hcontains : containsSub ['{', '{'] (tagOf p) = true := by
    rw [tagOf, containsSub]
    simp [List.isPrefixOf]
  rw [if_pos (by rw [hcontains]; rfl), pyTrim_tagOf, pureVarMatch_tagOf hnl]
  simp [htrim, hval, hnn]

theorem splitDots_no_dot {p : Str} (h : '.' ∉ p) : splitDots p = [p] := by
  induction p with
  | nil => rfl
  | cons c cs ih =>
      simp only [List.mem_cons] at h
      push_neg at h
      rw [splitDots, if_neg (fun hc => h.1 hc.symm), ih h.2]

/-- A single-segment lookup reads the merged context directly. -/
theorem getValue_single {context : Dict} {p : Str}
    (hne : p ≠ []) (hd : p.head? ≠ some '$') (hdot : '.' ∉ p) :
    getValue p context = ((dget context p).getD .null) := by
  rw [getValue, if_neg hne]
  simp only [if_neg hd]
  rw [splitDots_no_dot hdot, walkPath]
  match dget context p with
  | some v => rfl
  | none => rfl

/-- The `success` flag recorded in `results` for a step name. -/
def resultSuccess (st : ExecSt) (name : Str) : Option Value :=
  (dget st.results name).bind fun v =>
    match v with
    | .dict kvs => dget kvs (str! "success")
    | _ => none

/-- The `error` field recorded in `results` for a step name. -/
def resultError (st : ExecSt) (name : Str) : Option Value :=
  (dget st.results name).bind fun v =>
    match v with
    | .dict kvs => dget kvs (str! "error")
    | _ => none

/-! ## Claim scenarios -/

/-- A registry in which every instance construction succeeds. -/
def cenvOk : CreateEnv := fun _ => .ok ()

/-- A tool environment no scenario actually dispatches into. -/
def envUnused : ToolEnv := fun _ _ _ => .error (str! "unused")

/-- A placeholder state, used only to destructure an `Except` that is
known to be `.ok`. -/
def fallbackSt : ExecSt :=
  { storedData := [], results := [], toolMapping := [], mgr := mgrInit,
    stdin := [], verbose := true }

/-- Extracts the final state of a workflow run that completed startup. -/
def okSt : Except Str ExecSt → ExecSt
  | .ok st => st
  | .error _ => fallbackSt

/-! ## C1 — variable-path resolution precedence in the merged context -/

/-- A workflow whose seed variable `s` collides with a step named `s`. -/
def c1Config : WorkflowConfig :=
  { tools := [],
    vars := [(str! "s", .str (str! "from_vars"))],
    steps := [.print (str! "s") (str! "hello")] }

/-- The final state of the C1 run. -/
def c1Run : ExecSt :=
  okSt (executeWorkflow cenvOk envUnused c1Config mgrInit true [])

/-- C1: at the failing input — a run whose `storedData` key `s` (seeded
from `variables`) collides with a step named `s` — the merged context of
`_build_full_context` resolves `s` to the step's recorded result
`"hello"`, not to the `storedData` binding `"from_vars"`: the loop over
`results` runs after `full_context.update(self.stored_data)` and
overwrites it, although the source's own comment (workflow_executor.py
line 445) says stored data has the highest priority, and the claim says
the `storedData` binding wins. -/
theorem c1_results_shadow_stored_data :
    getValue (str! "s") (buildFullContext c1Run) = .str (str! "hello")
    ∧ dget c1Run.storedData (str! "s") = some (.str (str! "from_vars"))
    ∧ Value.str (str! "hello") ≠ .str (str! "from_vars") :=
  ⟨rfl, rfl, fun h => by injection h with h'; exact absurd h' (by decide)⟩

/-! ## C4 — tool startup is gated on the verbose flag -/

/-- A workflow declaring one tool and no steps. -/
def c4Config : WorkflowConfig :=
  { tools := [{ name := str! "quote", serverType := str! "fx" }],
    vars := [], steps := [] }

/-- C4: at the failing input — any workflow with a declared tool run
with `verbose = False` (the CLI default) — `execute_workflow` never
calls the Instance Manager's `start_server`, because
`_start_tool_server` performs the call only inside its
`if self.verbose:` block; the handle table stays empty while the
tool mapping is still recorded.  With `verbose = True` the same run
does start the declared tool.  The claim (and the source's own comment
"启动所有工具服务器" at line 151) says start is called for each declared
tool regardless of verbosity. -/
theorem c4_start_only_when_verbose :
    (okSt (executeWorkflow cenvOk envUnused c4Config mgrInit false [])).mgr.servers = []
    ∧ (okSt (executeWorkflow cenvOk envUnused c4Config mgrInit false [])).toolMapping
        = [(str! "quote", str! "fx")]
    ∧ (okSt (executeWorkflow cenvOk envUnused c4Config mgrInit true [])).mgr.servers
        = [(str! "fx", 8000)] :=
  ⟨rfl, rfl, rfl⟩

/-! ## C3 — INPUT validation has no retry loop -/

/-- The claim's validator config: `{type: integer, min: 1, max: 5}`. -/
def c3Cfg : ValConfig := { type := .integer, minV := some 1, maxV := some 5 }

/-- A workflow with a single INPUT step writing to variable `n`. -/
def c3Config : WorkflowConfig :=
  { tools := [], vars := [],
    steps := [.input (str! "ask") (str! "enter") [] (some (str! "n")) c3Cfg] }

/-- The C3 run fed the sequential inputs `"abc"`, `"9"`, `"3"`. -/
def c3Run : ExecSt :=
  okSt (executeWorkflow cenvOk envUnused c3Config mgrInit true
    [str! "abc", str! "9", str! "3"])

/-- C3 counterexample: fed `"abc"`, `"9"`, `"3"`, the INPUT step rejects
`"abc"` and immediately records a terminal failure — there is no
re-prompt: only one line is consumed (`"9"` and `"3"` remain unread) and
the integer 3 is never stored in `storedData`, contrary to the claimed
bounded-retry behaviour. -/
theorem c3_no_retry_counterexample :
    dget c3Run.storedData (str! "n") = none
    ∧ resultSuccess c3Run (str! "ask") = some (.bool false)
    ∧ c3Run.stdin = [str! "9", str! "3"] :=
  ⟨rfl, rfl, rfl⟩

/-- C3 (amended): an INPUT step with a declared validator prompts for
exactly one line of text and applies the type/range validator, but makes
only a single attempt: on validation failure it immediately records a
terminal failure for the step without re-prompting.  The validator
itself classifies the scenario's inputs as the claim says — `"abc"` is
rejected with a format error, `"9"` with a range error, and `"3"` is
accepted as the integer 3 — but under `{type: integer, min: 1, max: 5}`
the run fed `"abc"`, `"9"`, `"3"` fails on the first attempt, leaving
`"9"` and `"3"` unread and storing nothing; every INPUT step with an
output variable consumes exactly the first pending line, whatever the
validation outcome. -/
theorem c3_single_attempt :
    (validateInput (str! "abc") c3Cfg).1 = false
    ∧ (validateInput (str! "abc") c3Cfg).2.2
        = str! "输入格式错误: invalid literal for int: abc"
    ∧ validateInput (str! "9") c3Cfg = (false, none, str! "数值不能大于 5")
    ∧ validateInput (str! "3") c3Cfg = (true, some (.int 3), [])
    ∧ (∀ (env : ToolEnv) (st : ExecSt) (name prompt dflt v : Str)
         (cfg : ValConfig),
         ((executeStep env (.input name prompt dflt (some v) cfg) st).2).stdin
           = st.stdin.tail)
    ∧ dget c3Run.storedData (str! "n") = none
    ∧ resultSuccess c3Run (str! "ask") = some (.bool false)
    ∧ c3Run.stdin = [str! "9", str! "3"] := by
  refine ⟨rfl, rfl, rfl, rfl, ?_, rfl, rfl, rfl⟩
  intro env st name prompt dflt v cfg
  rcases hs : st.stdin with _ | ⟨line, restIn⟩
  · simp [executeStep, hs]
  · simp only [executeStep, hs]
    split <;> split <;> rfl

/-! ## C7 — conditional-block truthiness -/

/-- Modelled from the amended claim's wording: truthy means non-null
and either boolean true, a non-zero number, a non-empty collection, or a
non-empty string whose lowercase form is not `"false"`, `"no"` or `"0"`.
Stated for the refinement comparison with the source's `isTruthy`. -/
def claimTruthy (v : Value) : Bool :=
  match v with
  | .null => false
  | .bool b => b
  | .int n => if n = 0 then false else true
  | .str s =>
      if s = [] ∨ pyLower s = str! "false" ∨ pyLower s = str! "no"
          ∨ pyLower s = str! "0"
      then false else true
  | .list xs => !xs.isEmpty
  | .dict kvs => !kvs.isEmpty

theorem isTruthy_eq_claimTruthy (v : Value) : isTruthy v = claimTruthy v := by
  cases v with
  | str s =>
      rw [isTruthy, claimTruthy]
      refine if_congr ?_ rfl rfl
      have hnil : pyLower s = str! "" ↔ s = [] := by
        constructor
        · intro h
          have hl := congrArg List.length h
          simp only [pyLower, List.length_map] at hl
          have h0 : (str! "").length = 0 := rfl
          exact List.eq_nil_of_length_eq_zero (by rw [hl, h0])
        · intro h; subst h; rfl
      simp only [List.mem_cons, List.not_mem_nil, or_false]
      rw [hnil]
      tauto
  | _ => rfl

/-- C7 counterexample: `"no"` is a non-empty string, so by the claim's
truthiness rule the block must be included, yet the source's
`_is_truthy` classifies it as falsy and `render` omits the block. -/
theorem c7_nonempty_string_falsy :
    render (condTmpl (str! "a") (str! "X")) [(str! "a", .str (str! "no"))] = []
    ∧ (str! "no") ≠ ([] : Str) :=
  ⟨rfl, by decide⟩

/-- C7 (amended): for every context value `v`, rendering the conditional
block `\x7b\x7b#a\x7d\x7dX\x7b\x7b/a\x7d\x7d` includes the block content
exactly when `v` is truthy, where truthy means non-null and either
boolean true, a non-zero number, a non-empty collection, or a non-empty
string other than `"false"`/`"no"`/`"0"` case-insensitively (so not
every non-empty string is truthy); in particular `a = 0` yields `""` and
`a = 1` yields `"X"` as the claim states. -/
theorem c7_cond_block_truthiness (v : Value) :
    render (condTmpl (str! "a") (str! "X")) [(str! "a", v)]
      = (if claimTruthy v then str! "X" else [])
    ∧ render (condTmpl (str! "a") (str! "X")) [(str! "a", .int 0)] = []
    ∧ render (condTmpl (str! "a") (str! "X")) [(str! "a", .int 1)] = str! "X" := by
  refine ⟨?_, rfl, rfl⟩
  have h1 : renderVars [(str! "a", v)] (condTmpl (str! "a") (str! "X"))
      = condTmpl (str! "a") (str! "X") := by
    rw [renderVars_some (show findVarTag (condTmpl (str! "a") (str! "X"))
        = some ([], '#' :: str! "a", str! "X" ++ closeTagOf (str! "a")) from rfl)]
    rw [renderVars_some (show findVarTag (str! "X" ++ closeTagOf (str! "a"))
        = some (str! "X", '/' :: str! "a", []) from rfl)]
    rw [renderVars_none (show findVarTag ([] : Str) = none from rfl)]
    rfl
  rw [render, if_neg (by simp [condTmpl]), h1]
  rw [renderCondBlocks_some (show findCondTag (condTmpl (str! "a") (str! "X"))
      = some ([], str! "a", str! "X", []) from rfl)]
  rw [renderCondBlocks_none (show findCondTag ([] : Str) = none from rfl)]
  rw [show getValue (pyTrim (str! "a")) [(str! "a", v)] = v from rfl]
  rw [isTruthy_eq_claimTruthy]
  simp only [List.append_nil, List.nil_append]

/-! ## C2 — whole-value substitution -/

/-- The claim's structured example context `{k: {a:1, b:2}}`. -/
def c2Map : Dict := [(str! "a", .int 1), (str! "b", .int 2)]

/-- C2 counterexample: no single operation satisfies the claim's
conjunction.  The operation that implements whole-value substitution —
`_resolve_inputs_with_mustache`'s pure-reference branch — returns the
context value itself for *every* type, so for `\x7b\x7bk\x7d\x7d` with
`k = 5` it yields the integer 5, not the string `"5"` the claim demands;
while `SimpleMustache.render` itself, which does return `"5"` there,
always stringifies, so for `k = \x7ba:1, b:2\x7d` it returns the
`str`-ified dict text rather than the mapping unchanged. -/
theorem c2_whole_value_counterexample :
    resolveInputValue (.str (tagOf (str! "k"))) [(str! "k", .int 5)] = .int 5
    ∧ Value.int 5 ≠ .str (str! "5")
    ∧ render (tagOf (str! "k")) [(str! "k", .int 5)] = str! "5"
    ∧ render (tagOf (str! "k")) [(str! "k", .dict c2Map)] = pyRepr (.dict c2Map)
    ∧ pyRepr (.dict c2Map) ≠ tagOf (str! "k") :=
  ⟨rfl, fun h => Value.noConfusion h, rfl, rfl, by decide⟩

/-- C2 (amended): whole-value substitution is performed by TOOL-input
resolution, not by `render`, and applies to every resolved value, not
only structured ones: an input string that is exactly one interpolation
of a path resolving to a non-`None` value is replaced by that value
itself — the mapping `\x7ba:1, b:2\x7d` is passed through unchanged, and
`5` stays the integer 5 rather than the string `"5"`.
`SimpleMustache.render` itself always returns a string
(`render("\x7b\x7bk\x7d\x7d", \x7bk: 5\x7d) = "5"`), and an input mixing
literal text with interpolation is rendered to a string. -/
theorem c2_whole_value_rule (context : Dict) (p : Str) (v : Value)
    (htrim : pyTrim p = p) (hnl : '\n' ∉ p)
    (hval : getValue p context = v) (hnn : notNull v = true) :
    resolveInputValue (.str (tagOf p)) context = v
    ∧ resolveInputValue (.str (tagOf (str! "k"))) [(str! "k", .dict c2Map)]
        = .dict c2Map
    ∧ resolveInputValue (.str (tagOf (str! "k"))) [(str! "k", .int 5)] = .int 5
    ∧ render (tagOf (str! "k")) [(str! "k", .int 5)] = str! "5"
    ∧ resolveInputValue (.str (str! "n=" ++ tagOf (str! "k")))
        [(str! "k", .int 5)] = .str (str! "n=5") :=
  ⟨resolveInputValue_pure hnl htrim hval hnn, rfl, rfl, rfl, rfl⟩

/-- C2 witness: the whole-value rule applied at the concrete path `q`
resolving to the list `[1]`. -/
theorem c2_whole_value_rule_witness :
    pyTrim (str! "q") = str! "q"
    ∧ '\n' ∉ (str! "q")
    ∧ getValue (str! "q") [(str! "q", .list [.int 1])] = .list [.int 1]
    ∧ notNull (.list [.int 1]) = true
    ∧ resolveInputValue (.str (tagOf (str! "q"))) [(str! "q", .list [.int 1])]
        = .list [.int 1] :=
  ⟨rfl, by decide, rfl, rfl,
    (c2_whole_value_rule [(str! "q", .list [.int 1])] (str! "q")
      (.list [.int 1]) rfl (by decide) rfl rfl).1⟩

/-! ## C8 — absent-value marker and raw-text retention -/

/-- The claim's nested context `{a: {b: {c: 5}}}`. -/
def c8Nested : Dict := [(str! "a", .dict [(str! "b", .dict [(str! "c", .int 5)])])]

/-- C8: `getValue` walks nested dicts and returns the absent marker
(`None`, never an exception — the embedding is a total function) the
moment a segment fails to resolve, whether the current object lacks the
key or is not a dict at all; `getValue("a.b.c")` on the nested context
yields 5 while `getValue("a.b.z")` yields the marker; and `render`
substitutes nothing for an absent value, leaving the raw
`\x7b\x7bpath\x7d\x7d` text in the output. -/
theorem c8_absent_marker (context : Dict) (p : Str)
    (hbn : ∀ c ∈ p, c ≠ '{' ∧ c ≠ '}' ∧ c ≠ '\n')
    (htrim : pyTrim p = p)
    (hhead : p.head? ≠ some '#' ∧ p.head? ≠ some '^' ∧ p.head? ≠ some '/')
    (hval : getValue p context = .null) :
    getValue (str! "a.b.c") c8Nested = .int 5
    ∧ getValue (str! "a.b.z") c8Nested = .null
    ∧ (∀ (q : Str) (qs : List Str) (kvs : List (Str × Value)),
        dget kvs q = none → walkPath (q :: qs) (.dict kvs) = .null)
    ∧ (∀ (q : Str) (qs : List Str) (v : Value),
        (∀ kvs, v ≠ .dict kvs) → walkPath (q :: qs) v = .null)
    ∧ render (tagOf p) context = tagOf p := by
  refine ⟨rfl, rfl, ?_, ?_, render_tagOf_absent hbn htrim hhead hval⟩
  · intro q qs kvs h
    simp [walkPath, h]
  · intro q qs v hv
    cases v with
    | dict kvs => exact absurd rfl (hv kvs)
    | null => rfl
    | bool b => rfl
    | int n => rfl
    | str s => rfl
    | list xs => rfl

/-- C8 witness: the claim's own example path `a.b.z`, which resolves to
the marker and is left verbatim by `render`. -/
theorem c8_absent_marker_witness :
    (∀ c ∈ (str! "a.b.z"), c ≠ '{' ∧ c ≠ '}' ∧ c ≠ '\n')
    ∧ pyTrim (str! "a.b.z") = str! "a.b.z"
    ∧ getValue (str! "a.b.z") c8Nested = .null
    ∧ render (tagOf (str! "a.b.z")) c8Nested = tagOf (str! "a.b.z") :=
  ⟨by decide, rfl, rfl,
    (c8_absent_marker c8Nested (str! "a.b.z") (by decide) rfl
      ⟨by decide, by decide, by decide⟩ rfl).2.2.2.2⟩

/-! ## C5 — step failures do not unwind the run -/

/-- A tool environment whose every dispatch raises, as a tool method
raising an exception does. -/
def envRaise : ToolEnv := fun _ _ _ => .error (str! "timeout")

/-- A workflow with a failing TOOL step followed by an unrelated PRINT
step that does not reference the failed step's output. -/
def c5Config : WorkflowConfig :=
  { tools := [{ name := str! "quote", serverType := str! "fx" }],
    vars := [],
    steps := [.tool (str! "quote") (str! "quote") (str! "fetch_data") [] none,
              .print (str! "announce") (str! "done")] }

/-- The C5 run: the tool raises, the print step still executes. -/
def c5Run : ExecSt :=
  okSt (executeWorkflow cenvOk envRaise c5Config mgrInit true [])

/-- C5: a TOOL step whose dispatch raises records
`{success: False, error}` under its step name and does not unwind the
run — executing the sequence from that step is exactly executing the
remaining steps from the state with the failure recorded (so every
subsequent step in declared order still executes); concretely, in a run
whose first tool step raises, the failure is recorded for `quote` while
the unrelated later `announce` step still succeeds. -/
theorem c5_failure_recorded_run_continues :
    (∀ (env : ToolEnv) (st : ExecSt)
       (name toolName serverType method msg : Str)
       (storeAs : Option Str) (rest : List Step),
       dget st.toolMapping toolName = some serverType →
       callToolMethod env st.mgr serverType method [] = .error msg →
       executeSteps env (.tool name toolName method [] storeAs :: rest) st =
         executeSteps env rest
           { st with results := dset st.results name (errRecord (.str msg)) })
    ∧ resultSuccess c5Run (str! "quote") = some (.bool false)
    ∧ resultError c5Run (str! "quote") = some (.str (str! "timeout"))
    ∧ resultSuccess c5Run (str! "announce") = some (.bool true) := by
  refine ⟨?_, rfl, rfl, rfl⟩
  intro env st name toolName serverType method msg storeAs rest hmap hcall
  have hres : resolveInputs [] (buildFullContext st) = [] := rfl
  have hstep : executeStep env (.tool name toolName method [] storeAs) st =
      (none, { st with results := dset st.results name (errRecord (.str msg)) }) := by
    simp only [executeStep, hmap, hres, hcall]
  rw [executeSteps, hstep]
  rcases h2 : executeSteps env rest
      { st with results := dset st.results name (errRecord (.str msg)) } with ⟨o, st2⟩
  cases o <;> simp

/-- C5 witness: the general continuation equation applied at a concrete
failing tool step (tool type not running, so dispatch raises
server-not-running) followed by one print step. -/
theorem c5_failure_recorded_run_continues_witness :
    dget fallbackSt.toolMapping (str! "t") = none
    ∧ dget [(str! "t", str! "s")] (str! "t") = some (str! "s")
    ∧ callToolMethod envRaise mgrInit (str! "s") (str! "m") [] =
        .error (str! "服务器未运行: " ++ str! "s")
    ∧ executeSteps envRaise
        [.tool (str! "fail") (str! "t") (str! "m") [] none,
         .print (str! "p") (str! "done")]
        { fallbackSt with toolMapping := [(str! "t", str! "s")] } =
      executeSteps envRaise [.print (str! "p") (str! "done")]
        { fallbackSt with
            toolMapping := [(str! "t", str! "s")],
            results := dset fallbackSt.results (str! "fail")
              (errRecord (.str (str! "服务器未运行: " ++ str! "s"))) } :=
  ⟨rfl, rfl, rfl,
    c5_failure_recorded_run_continues.1 envRaise
      { fallbackSt with toolMapping := [(str! "t", str! "s")] }
      (str! "fail") (str! "t") (str! "s") (str! "m")
      (str! "服务器未运行: " ++ str! "s") none
      [.print (str! "p") (str! "done")] rfl rfl⟩

/-! ## C6 — pool exhaustion and idempotent restart -/

/-- A sequence of `start_server` calls for the given tool types,
propagating the first raised exception. -/
def startMany (cenv : CreateEnv) : List Str → MgrSt → Except Str MgrSt
  | [], st => .ok st
  | n :: ns, st =>
      match startServer cenv n st with
      | (.ok _, st') => startMany cenv ns st'
      | (.error e, _) => .error e

theorem startMany_fresh (cenv : CreateEnv) :
    ∀ (names : List Str) (st : MgrSt),
      (∀ n ∈ names, cenv n = .ok ()) →
      names.Nodup →
      (∀ n ∈ names, dget st.servers n = none) →
      names.length ≤ st.pool.length →
      ∃ st', startMany cenv names st = .ok st'
        ∧ st'.pool = st.pool.drop names.length
        ∧ st'.servers.map Prod.fst = st.servers.map Prod.fst ++ names := by
  intro names
  induction names with
  | nil =>
      intro st _ _ _ _
      exact ⟨st, rfl, by simp, by simp⟩
  | cons n ns ih =>
      intro st hok hnd habs hlen
      rcases hp : st.pool with _ | ⟨p, rest⟩
      · rw [hp] at hlen; simp at hlen
      · have hstart : startServer cenv n st =
            (.ok p, { pool := rest, servers := dset st.servers n p }) := by
          rw [startServer, habs n (List.mem_cons_self ..), hp,
            hok n (List.mem_cons_self ..)]
        rw [startMany, hstart]
        simp only [List.nodup_cons] at hnd
        have habs' : ∀ m ∈ ns,
            dget (dset st.servers n p : List (Str × Nat)) m = none := by
          intro m hm
          rw [dget_dset_ne _ (fun he => hnd.1 (by rw [he]; exact hm))]
          exact habs m (List.mem_cons_of_mem _ hm)
        have hplen := congrArg List.length hp
        simp only [List.length_cons] at hplen hlen
        obtain ⟨st', h1, h2, h3⟩ :=
          ih { pool := rest, servers := dset st.servers n p }
            (fun m hm => hok m (List.mem_cons_of_mem _ hm)) hnd.2 habs'
            (by simpa using by omega)
        refine ⟨st', h1, ?_, ?_⟩
        · rw [h2]
          rfl
        · rw [h3, dset_absent (habs n (List.mem_cons_self ..))]
          simp

/-- C6: on a fresh manager, whose identifier pool holds the 100 ports
8000–8099, starting 100 distinct tool types (whose construction
succeeds) all succeed and drain the pool, and the 101st start for a new
distinct tool type raises the pool-exhaustion `RuntimeError` leaving the
state unchanged; and for every tool type already running, a repeated
start is a no-op returning the recorded port with both the pool and the
handle table unchanged. -/
theorem c6_exhaustion_and_idempotent_restart
    (cenv : CreateEnv) (names : List Str) (extra : Str)
    (hok : ∀ n ∈ names, cenv n = .ok ())
    (hnd : names.Nodup) (hlen : names.length = 100) (hx : extra ∉ names) :
    (∃ st', startMany cenv names mgrInit = .ok st'
       ∧ st'.pool = []
       ∧ startServer cenv extra st' = (.error noPortMsg, st'))
    ∧ (∀ (st : MgrSt) (n : Str) (q : Nat),
         dget st.servers n = some q → startServer cenv n st = (.ok q, st)) := by
  constructor
  · have hpool : mgrInit.pool.length = 100 := by simp [mgrInit]
    obtain ⟨st', h1, h2, h3⟩ :=
      startMany_fresh cenv names mgrInit hok hnd (fun n _ => rfl)
        (by rw [hlen, hpool])
    have hempty : st'.pool = [] := by
      rw [h2, hlen, ← hpool]
      exact List.drop_length _
    refine ⟨st', h1, hempty, ?_⟩
    have habs : dget st'.servers extra = none := by
      rw [dget_none_iff, h3]
      simpa [mgrInit] using hx
    rw [startServer, habs, hempty]
  · intro st n q h
    rw [startServer, h]

/-- 100 distinct tool-type names. -/
def c6Names : List Str := (List.range 100).map fun i => List.replicate i 'a'

theorem c6Names_nodup : c6Names.Nodup := by
  refine List.Nodup.map ?_ (List.nodup_range 100)
  intro i j h
  have := congrArg List.length h
  simpa using this

theorem c6Names_extra : List.replicate 100 'a' ∉ c6Names := by
  intro h
  obtain ⟨i, hi, he⟩ := List.mem_map.mp h
  have := congrArg List.length he
  simp only [List.length_replicate] at this
  rw [this] at hi
  exact absurd (List.mem_range.mp hi) (by omega)

/-- C6 witness: the theorem applied to 100 concrete distinct names with
always-succeeding construction and the fresh manager. -/
theorem c6_exhaustion_witness :
    (∀ n ∈ c6Names, cenvOk n = .ok ()) ∧ c6Names.Nodup
    ∧ c6Names.length = 100 ∧ List.replicate 100 'a' ∉ c6Names
    ∧ ((∃ st', startMany cenvOk c6Names mgrInit = .ok st'
         ∧ st'.pool = []
         ∧ startServer cenvOk (List.replicate 100 'a') st'
             = (.error noPortMsg, st'))
       ∧ (∀ (st : MgrSt) (n : Str) (q : Nat),
            dget st.servers n = some q →
            startServer cenvOk n st = (.ok q, st))) :=
  ⟨fun _ _ => rfl, c6Names_nodup, by simp [c6Names], c6Names_extra,
    c6_exhaustion_and_idempotent_restart cenvOk c6Names
      (List.replicate 100 'a') (fun _ _ => rfl) c6Names_nodup
      (by simp [c6Names]) c6Names_extra⟩

/-! ## C9 — pool/held-identifier invariant -/

theorem startServer_running {cenv : CreateEnv} {n : Str} {st : MgrSt} {q : Nat}
    (h : dget st.servers n = some q) : startServer cenv n st = (.ok q, st) := by
  rw [startServer, h]

theorem startServer_noPool {cenv : CreateEnv} {n : Str} {st : MgrSt}
    (h1 : dget st.servers n = none) (h2 : st.pool = []) :
    startServer cenv n st = (.error noPortMsg, st) := by
  rw [startServer, h1, h2]

theorem startServer_createFail {cenv : CreateEnv} {n : Str} {st : MgrSt}
    {p : Nat} {rest : List Nat} {e : Str}
    (h1 : dget st.servers n = none) (h2 : st.pool = p :: rest)
    (h3 : cenv n = .error e) :
    startServer cenv n st = (.error e, { st with pool := rest }) := by
  rw [startServer, h1, h2, h3]

theorem startServer_fresh {cenv : CreateEnv} {n : Str} {st : MgrSt}
    {p : Nat} {rest : List Nat}
    (h1 : dget st.servers n = none) (h2 : st.pool = p :: rest)
    (h3 : cenv n = .ok ()) :
    startServer cenv n st =
      (.ok p, { pool := rest, servers := dset st.servers n p }) := by
  rw [startServer, h1, h2, h3]

theorem stopServer_running {n : Str} {st : MgrSt} {q : Nat}
    (h : dget st.servers n = some q) :
    stopServer n st =
      { pool := st.pool ++ [q], servers := dremove st.servers n } := by
  rw [stopServer, h]

theorem stopServer_absent {n : Str} {st : MgrSt}
    (h : dget st.servers n = none) : stopServer n st = st := by
  rw [stopServer, h]

/-- One external call to the manager: a `start_server` whose instance
construction has the given outcome, or a `stop_server`. -/
inductive MgrOp where
  | start (name : Str) (create : Except Str Unit)
  | stop (name : Str)

/-- Applies one call to the manager state (the call's return value or
raised exception does not affect the resulting state). -/
def applyOp (st : MgrSt) : MgrOp → MgrSt
  | .start n r => (startServer (fun _ => r) n st).2
  | .stop n => stopServer n st

/-- The manager state reached from a fresh manager by a call sequence. -/
def runOps (ops : List MgrOp) : MgrSt := ops.foldl applyOp mgrInit

/-- The identifiers recorded in the running-server table. -/
def heldPorts (st : MgrSt) : List Nat := st.servers.map Prod.snd

/-- The amended invariant: the pooled and held identifiers are pairwise
distinct (so the pool is disjoint from the held set and every running
tool type holds its own identifier), all of them come from the initial
fixed pool, and the table has one entry per tool type. -/
def MgrInv (st : MgrSt) : Prop :=
  (st.pool ++ heldPorts st).Nodup
  ∧ (∀ x ∈ st.pool ++ heldPorts st, x ∈ mgrInit.pool)
  ∧ (st.servers.map Prod.fst).Nodup

/-- A call that does not leak: a start whose construction succeeds, or
any stop. -/
def opCreateOk : MgrOp → Prop
  | .start _ r => r = .ok ()
  | .stop _ => True

theorem applyOp_perm {st : MgrSt} {op : MgrOp} (hop : opCreateOk op) :
    List.Perm ((applyOp st op).pool ++ heldPorts (applyOp st op))
      (st.pool ++ heldPorts st) := by
  cases op with
  | start n r =>
      rcases hs : dget st.servers n with _ | q
      · rcases hp : st.pool with _ | ⟨p, rest⟩
        · rw [applyOp, startServer_noPool hs hp]
          show List.Perm (st.pool ++ heldPorts st) ([] ++ heldPorts st)
          rw [hp]
        · cases r with
          | error e => exact absurd hop (by simp [opCreateOk])
          | ok u =>
              cases u
              rw [applyOp, @startServer_fresh (fun _ => .ok ()) n st p rest hs hp rfl]
              show List.Perm
                (rest ++ heldPorts { pool := rest, servers := dset st.servers n p })
                (p :: rest ++ heldPorts st)
              have hheld : heldPorts { pool := rest, servers := dset st.servers n p }
                  = heldPorts st ++ [p] := by
                rw [heldPorts, heldPorts, dset_absent hs]
                simp
              rw [hheld, ← List.append_assoc]
              exact List.perm_append_singleton ..
      · rw [applyOp, startServer_running hs]
  | stop n =>
      rcases hs : dget st.servers n with _ | q
      · rw [applyOp, stopServer_absent hs]
      · rw [applyOp, stopServer_running hs]
        obtain ⟨l1, l2, hl, hr⟩ := dget_split hs
        show List.Perm
          ((st.pool ++ [q]) ++ heldPorts { pool := st.pool ++ [q], servers := dremove st.servers n })
          (st.pool ++ heldPorts st)
        have h1 : heldPorts { pool := st.pool ++ [q], servers := dremove st.servers n }
            = l1.map Prod.snd ++ l2.map Prod.snd := by
          rw [heldPorts, hr]
          simp
        have h2 : heldPorts st = l1.map Prod.snd ++ q :: l2.map Prod.snd := by
          rw [heldPorts, hl]
          simp
        rw [h1, h2]
        have h3 : (st.pool ++ [q]) ++ (l1.map Prod.snd ++ l2.map Prod.snd)
            = st.pool ++ (q :: (l1.map Prod.snd ++ l2.map Prod.snd)) := by simp
        rw [h3]
        exact List.Perm.append_left _ List.perm_middle.symm

theorem applyOp_inv {st : MgrSt} (h : MgrInv st) (op : MgrOp) :
    MgrInv (applyOp st op) := by
  obtain ⟨hnd, hsub, hkeys⟩ := h
  cases op with
  | start n r =>
      rcases hs : dget st.servers n with _ | q
      · rcases hp : st.pool with _ | ⟨p, rest⟩
        · rw [applyOp, startServer_noPool hs hp]; exact ⟨hnd, hsub, hkeys⟩
        · cases r with
          | error e =>
              rw [applyOp,
                @startServer_createFail (fun _ => .error e) n st p rest e hs hp rfl]
              show MgrInv { st with pool := rest }
              have hsl : List.Sublist (rest ++ heldPorts st) (st.pool ++ heldPorts st) := by
                rw [hp, List.cons_append]
                exact List.sublist_cons_self ..
              exact ⟨hsl.nodup hnd, fun x hx => hsub x (hsl.mem hx), hkeys⟩
          | ok u =>
              cases u
              have hperm := @applyOp_perm st (.start n (.ok ())) (by rfl)
              refine ⟨hperm.nodup_iff.mpr hnd,
                fun x hx => hsub x (hperm.mem_iff.mp hx), ?_⟩
              rw [applyOp, @startServer_fresh (fun _ => .ok ()) n st p rest hs hp rfl]
              show ((dset st.servers n p).map Prod.fst).Nodup
              rw [dset_absent hs]
              simp only [List.map_append, List.map_cons, List.map_nil]
              rw [List.nodup_append]
              exact ⟨hkeys, List.nodup_singleton _,
                by simpa using fun hmem => (dget_none_iff.mp hs) hmem⟩
      · rw [applyOp, startServer_running hs]; exact ⟨hnd, hsub, hkeys⟩
  | stop n =>
      rcases hs : dget st.servers n with _ | q
      · rw [applyOp, stopServer_absent hs]; exact ⟨hnd, hsub, hkeys⟩
      · have hperm := @applyOp_perm st (.stop n) trivial
        refine ⟨hperm.nodup_iff.mpr hnd,
          fun x hx => hsub x (hperm.mem_iff.mp hx), ?_⟩
        rw [applyOp, stopServer_running hs]
        show ((dremove st.servers n).map Prod.fst).Nodup
        obtain ⟨l1, l2, hl, hr⟩ := dget_split hs
        have hsl : List.Sublist ((dremove st.servers n).map Prod.fst)
            (st.servers.map Prod.fst) := by
          rw [hr, hl]
          simp only [List.map_append, List.map_cons]
          exact (List.sublist_cons_self ..).append_left _
        exact hsl.nodup hkeys

theorem mgrInit_inv : MgrInv mgrInit := by
  refine ⟨?_, fun x hx => ?_, by simp [mgrInit]⟩
  · show ((List.range' 8000 100) ++ heldPorts mgrInit).Nodup
    simpa [heldPorts, mgrInit] using by decide
  · simpa [heldPorts, mgrInit] using hx

/-- C9 counterexample: a single `start_server` call whose instance
construction raises draws port 8000 from the pool and records nothing,
so 8000 is in neither the pool nor the held set afterwards — the union
of pooled and held identifiers is no longer the initial pool. -/
theorem c9_port_leak_counterexample :
    (runOps [.start (str! "t") (.error (str! "boom"))]).pool
      = List.range' 8001 99
    ∧ (runOps [.start (str! "t") (.error (str! "boom"))]).servers = []
    ∧ 8000 ∈ mgrInit.pool
    ∧ 8000 ∉ (runOps [.start (str! "t") (.error (str! "boom"))]).pool
        ++ heldPorts (runOps [.start (str! "t") (.error (str! "boom"))]) :=
  ⟨rfl, rfl, by decide, by decide⟩

/-- C9 (amended): in every state reachable from a fresh `ServerManager`
by any sequence of `start_server` and `stop_server` calls, the pooled
and held identifiers are pairwise distinct — the pool is disjoint from
the held set and each running tool type holds exactly one identifier,
distinct from every other's — and all of them belong to the initial
fixed pool 8000–8099, with one table entry per running tool type; the
union of pooled and held identifiers is exactly the initial pool
provided no start call's instance construction raised — a start whose
construction raises leaks the identifier it drew, so in general the
union can be a proper subset. -/
theorem c9_manager_invariant (ops : List MgrOp) :
    MgrInv (runOps ops)
    ∧ ((∀ op ∈ ops, opCreateOk op) →
        List.Perm ((runOps ops).pool ++ heldPorts (runOps ops))
          mgrInit.pool) := by
  have main : ∀ (l : List MgrOp) (st : MgrSt), MgrInv st →
      MgrInv (l.foldl applyOp st)
      ∧ ((∀ op ∈ l, opCreateOk op) →
          List.Perm ((l.foldl applyOp st).pool ++ heldPorts (l.foldl applyOp st))
            (st.pool ++ heldPorts st)) := by
    intro l
    induction l with
    | nil => exact fun st h => ⟨h, fun _ => List.Perm.refl _⟩
    | cons op rest ih =>
        intro st h
        obtain ⟨h1, h2⟩ := ih (applyOp st op) (applyOp_inv h op)
        refine ⟨h1, fun hops => ?_⟩
        exact (h2 (fun o ho => hops o (List.mem_cons_of_mem _ ho))).trans
          (applyOp_perm (hops op (List.mem_cons_self ..)))
  obtain ⟨h1, h2⟩ := main ops mgrInit mgrInit_inv
  refine ⟨h1, fun hops => ?_⟩
  exact (h2 hops).trans (by simp [heldPorts, mgrInit])

/-- C9 witness: the invariant and the exact-union permutation at the
concrete call sequence start `t` (construction succeeding), stop `t`. -/
theorem c9_manager_invariant_witness :
    (∀ op ∈ ([.start (str! "t") (.ok ()), .stop (str! "t")] : List MgrOp),
       opCreateOk op)
    ∧ MgrInv (runOps [.start (str! "t") (.ok ()), .stop (str! "t")])
    ∧ List.Perm
        ((runOps [.start (str! "t") (.ok ()), .stop (str! "t")]).pool
          ++ heldPorts (runOps [.start (str! "t") (.ok ()), .stop (str! "t")]))
        mgrInit.pool := by
  have hops : ∀ op ∈ ([.start (str! "t") (.ok ()), .stop (str! "t")] : List MgrOp),
      opCreateOk op := by
    intro op hmem
    rcases List.mem_cons.mp hmem with rfl | hmem
    · rfl
    · rcases List.mem_cons.mp hmem with rfl | hmem
      · trivial
      · exact absurd hmem (List.not_mem_nil _)
  exact ⟨hops,
    (c9_manager_invariant [.start (str! "t") (.ok ()), .stop (str! "t")]).1,
    (c9_manager_invariant [.start (str! "t") (.ok ()), .stop (str! "t")]).2 hops⟩

/-! ## C10 — failure envelopes of TOOL steps -/

theorem mem_keys_dset {α : Type} {l : List (Str × α)} {k x : Str} {v : α}
    (h : x ∈ (dset l k v).map Prod.fst) : x ∈ l.map Prod.fst ∨ x = k := by
  induction l with
  | nil => simpa [dset] using h
  | cons kv rest ih =>
      obtain ⟨k', w⟩ := kv
      by_cases hk : k' = k
      · subst hk
        simp only [dset, if_pos rfl] at h
        exact Or.inl h
      · simp only [dset, if_neg hk, List.map_cons, List.mem_cons] at h ⊢
        rcases h with h | h
        · exact Or.inl (Or.inl h)
        · rcases ih h with h' | h'
          · exact Or.inl (Or.inr h')
          · exact Or.inr h'

theorem dset_keys_nodup {α : Type} {l : List (Str × α)} {k : Str} {v : α}
    (h : (l.map Prod.fst).Nodup) : ((dset l k v).map Prod.fst).Nodup := by
  induction l with
  | nil => simp [dset]
  | cons kv rest ih =>
      obtain ⟨k', w⟩ := kv
      simp only [List.map_cons, List.nodup_cons] at h
      by_cases hk : k' = k
      · subst hk
        have hd : dset ((k', w) :: rest) k' v = (k', v) :: rest := by
          rw [dset, if_pos rfl]
        rw [hd, List.map_cons, List.nodup_cons]
        exact h
      · simp only [dset, if_neg hk, List.map_cons, List.nodup_cons]
        refine ⟨fun hmem => ?_, ih h.2⟩
        rcases mem_keys_dset hmem with h' | h'
        · exact h.1 h'
        · exact hk h'

/-- C10 (amended): a TOOL step whose dispatch returns normally with a
false success flag still writes the full envelope into `storedData`
under the step name and under the declared output alias, and records
`{success: False, error}` in `results`; a later whole-value template
reference to the step name resolves to that `results` failure record —
which is never an unresolved placeholder, but carries only the `success`
and `error` keys, because the `results` entry shadows the `storedData`
envelope in the merged context, and equals the full envelope only when
the envelope has exactly those keys. -/
theorem c10_failure_envelope (env : ToolEnv) (st : ExecSt)
    (name toolName serverType method outv : Str) (d : Dict)
    (hmap : dget st.toolMapping toolName = some serverType)
    (hcall : callToolMethod env st.mgr serverType method [] = .ok d)
    (hfail : pyTruthy ((dget d (str! "success")).getD (.bool false)) = false)
    (hrk : (st.results.map Prod.fst).Nodup)
    (hne : name ≠ []) (hdol : name.head? ≠ some '$') (hdot : '.' ∉ name)
    (htrim : pyTrim name = name) (hnl : '\n' ∉ name)
    (hsd : name ≠ str! "stored_data") (hrs : name ≠ str! "results") :
    dget (executeStep env (.tool name toolName method [] (some outv)) st).2.storedData
        name = some (.dict d)
    ∧ dget (executeStep env (.tool name toolName method [] (some outv)) st).2.storedData
        outv = some (.dict d)
    ∧ dget (executeStep env (.tool name toolName method [] (some outv)) st).2.results
        name = some (errRecord ((dget d (str! "error")).getD (.str (str! "未知错误"))))
    ∧ resolveInputValue (.str (tagOf name))
        (buildFullContext (executeStep env (.tool name toolName method [] (some outv)) st).2)
        = errRecord ((dget d (str! "error")).getD (.str (str! "未知错误"))) := by
  have hres : resolveInputs [] (buildFullContext st) = [] := rfl
  have hstep : executeStep env (.tool name toolName method [] (some outv)) st =
      (some (.dict d),
        { storedData := dset (dset st.storedData outv (.dict d)) name (.dict d),
          results := dset (dset st.results name (okRecord (.dict d))) name
            (errRecord ((dget d (str! "error")).getD (.str (str! "未知错误")))),
          toolMapping := st.toolMapping, mgr := st.mgr, stdin := st.stdin,
          verbose := st.verbose }) := by
    simp only [executeStep, hmap, hres, hcall, hfail]
    rfl
  rw [hstep]
  dsimp only
  set emsg := (dget d (str! "error")).getD (.str (str! "未知错误")) with hemsg
  have hr1 : dget (dset (dset st.results name (okRecord (.dict d))) name
      (errRecord emsg)) name = some (errRecord emsg) := dget_dset_self ..
  refine ⟨dget_dset_self .., ?_, hr1, ?_⟩
  · by_cases ha : name = outv
    · subst ha
      exact dget_dset_self ..
    · rw [dget_dset_ne _ ha]
      exact dget_dset_self ..
  · have hkeys : (((dset (dset st.results name (okRecord (.dict d))) name
        (errRecord emsg)).map Prod.fst)).Nodup :=
      dset_keys_nodup (dset_keys_nodup hrk)
    have hflat : flattenResult (errRecord emsg) = errRecord emsg := rfl
    have hctx : dget (buildFullContext
        { storedData := dset (dset st.storedData outv (.dict d)) name (.dict d),
          results := dset (dset st.results name (okRecord (.dict d))) name
            (errRecord emsg),
          toolMapping := st.toolMapping, mgr := st.mgr, stdin := st.stdin,
          verbose := st.verbose }) name = some (errRecord emsg) := by
      rw [buildFullContext]
      rw [dget_dset_ne _ (fun he => hrs he.symm),
        dget_dset_ne _ (fun he => hsd he.symm)]
      rw [foldl_dset_present flattenResult hkeys hr1]
      rw [hflat]
    refine resolveInputValue_pure hnl htrim ?_ rfl
    rw [getValue_single hne hdol hdot, hctx]
    rfl

/-- A tool returning a failure envelope with an extra payload key. -/
def envDetail : ToolEnv := fun _ _ _ =>
  .ok [(str! "success", .bool false), (str! "error", .str (str! "timeout")),
       (str! "detail", .int 42)]

/-- The envelope `envDetail` returns. -/
def c10Env : Dict :=
  [(str! "success", .bool false), (str! "error", .str (str! "timeout")),
   (str! "detail", .int 42)]

/-- The failing-tool run for C10. -/
def c10Run : ExecSt :=
  okSt (executeWorkflow cenvOk envDetail
    { tools := [{ name := str! "quote", serverType := str! "fx" }],
      vars := [],
      steps := [.tool (str! "quote") (str! "quote") (str! "fetch_data") []
        (some (str! "alias"))] }
    mgrInit true [])

/-- C10 counterexample: when the failure envelope carries an extra
`detail` key, the merged context resolves a whole-value reference to the
step name to the two-key `results` failure record, not to the full
envelope stored in `storedData` — the `results` entry shadows it — so
the reference does not resolve to the failure envelope the claim names. -/
theorem c10_shadowed_envelope_counterexample :
    dget c10Run.storedData (str! "quote") = some (.dict c10Env)
    ∧ dget c10Run.storedData (str! "alias") = some (.dict c10Env)
    ∧ resolveInputValue (.str (tagOf (str! "quote"))) (buildFullContext c10Run)
        = errRecord (.str (str! "timeout"))
    ∧ errRecord (.str (str! "timeout")) ≠ .dict c10Env :=
  ⟨rfl, rfl, rfl, by
    intro h
    rw [errRecord] at h
    injection h with h'
    have := congrArg List.length h'
    simp [c10Env] at this⟩

/-- C10 witness: the amended theorem at a concrete failing envelope with
an extra key, on a state with the tool mapped and its server running. -/
theorem c10_failure_envelope_witness :
    dget [(str! "t", str! "s")] (str! "t") = some (str! "s")
    ∧ callToolMethod envDetail { pool := [], servers := [(str! "s", 8000)] }
        (str! "s") (str! "m") [] = .ok c10Env
    ∧ pyTruthy ((dget c10Env (str! "success")).getD (.bool false)) = false
    ∧ (dget (executeStep envDetail
        (.tool (str! "q") (str! "t") (str! "m") [] (some (str! "a")))
        { storedData := [], results := [], toolMapping := [(str! "t", str! "s")],
          mgr := { pool := [], servers := [(str! "s", 8000)] },
          stdin := [], verbose := true }).2.storedData (str! "q")
          = some (.dict c10Env)
       ∧ dget (executeStep envDetail
          (.tool (str! "q") (str! "t") (str! "m") [] (some (str! "a")))
          { storedData := [], results := [], toolMapping := [(str! "t", str! "s")],
            mgr := { pool := [], servers := [(str! "s", 8000)] },
            stdin := [], verbose := true }).2.storedData (str! "a")
          = some (.dict c10Env)) := by
  refine ⟨rfl, rfl, rfl, ?_⟩
  have h := c10_failure_envelope envDetail
    { storedData := [], results := [], toolMapping := [(str! "t", str! "s")],
      mgr := { pool := [], servers := [(str! "s", 8000)] },
      stdin := [], verbose := true }
    (str! "q") (str! "t") (str! "s") (str! "m") (str! "a") c10Env
    rfl rfl rfl (by simp) (by decide) (by decide) (by decide) rfl (by decide)
    (by decide) (by decide)
  exact ⟨h.1, h.2.1⟩

end UltraRag
